import Mathlib

/-!
Verification of the VC fund simulator (engine.py, waterfall.py, utils.py,
parameters.py) against its natural-language specification.

Money amounts and simulated times are modelled as exact rationals; the
Python floats perform the same field operations, so every claim below is an
algebraic property of those operations.  Fallible Python operations (list
indexing, raising) are modelled with Option.  Ledger entries are the
(amount, time_months, tag) triples of the source.
-/

namespace VCSim

/-- A cash-flow ledger entry: (signed amount, time in months, integer tag).
Tag scheme of the source: company id for investments/exits, -1 fees,
-2 capital calls, 9999 wind-down cash sweep. -/
structure LedgerEntry where
  amount : ℚ
  time_months : ℚ
  tag : ℤ
  deriving DecidableEq, Repr

/-- CapitalCallSettings from parameters.py. -/
structure CapitalCallSettings where
  tranche_size_pct : ℚ
  minimum_cash_balance_pct : ℚ
  deriving DecidableEq, Repr

/-- Waterfall terms from parameters.py. -/
structure Waterfall where
  catch_up_pct : ℚ
  carried_interest_pct : ℚ
  preferred_return_pct : ℚ
  gp_capital_contribution_pct : ℚ
  deriving DecidableEq, Repr

/-- The slice of FundParameters (parameters.py) used by the claims below. -/
structure FundParameters where
  committed_capital : ℚ
  investment_period_months : ℚ
  mgmt_fee_commitment_period_rate : ℚ
  mgmt_fee_post_commitment_period_rate : ℚ
  capital_calls : CapitalCallSettings
  waterfall : Waterfall
  deriving DecidableEq, Repr

/-- Result of a call to the capital-call routine: updated cash, updated
capital called, and the ledger entries appended by the call. -/
structure CallResult where
  cash : ℚ
  called : ℚ
  appended : List LedgerEntry
  deriving DecidableEq, Repr

/-- engine.py, _trigger_capital_call (lines 81-146).  Direct transcription:
the minimum cash buffer, the two trigger conditions, the targeted/tranche
sizing, the clip to remaining commitment, and the greater-than-one-dollar
de-minimis gate before mutating cash, called capital and the ledger. -/
def trigger_capital_call (params : FundParameters) (cash_on_hand capital_called : ℚ)
    (current_time : ℚ) (amount_needed : ℚ) : CallResult :=
  let min_cash_balance := params.committed_capital * params.capital_calls.tranche_size_pct *
    params.capital_calls.minimum_cash_balance_pct
  let is_shortfall := amount_needed > cash_on_hand
  let would_be_below_buffer := cash_on_hand - amount_needed < min_cash_balance
  if is_shortfall ∨ would_be_below_buffer then
    let required_call := min_cash_balance - (cash_on_hand - amount_needed)
    let targeted_call_amount := max 0 required_call
    let standard_tranche := params.committed_capital * params.capital_calls.tranche_size_pct
    let desired_call_amount := max targeted_call_amount standard_tranche
    let call_amount_possible := params.committed_capital - capital_called
    let amount_to_call := min desired_call_amount call_amount_possible
    if amount_to_call > 1 then
      ⟨cash_on_hand + amount_to_call, capital_called + amount_to_call,
        [⟨-amount_to_call, current_time, -2⟩]⟩
    else
      ⟨cash_on_hand, capital_called, []⟩
  else
    ⟨cash_on_hand, capital_called, []⟩

/-- The buffer maintained by the treasury, as in the claim:
committed capital times tranche size pct times minimum cash balance pct. -/
def callBuffer (params : FundParameters) : ℚ :=
  params.committed_capital * params.capital_calls.tranche_size_pct *
    params.capital_calls.minimum_cash_balance_pct

/-- The claim's closed form for the amount called:
min(max(buffer - (c - a), one standard tranche), committed - called). -/
def claimCallAmount (params : FundParameters) (cash called amount_needed : ℚ) : ℚ :=
  min (max (callBuffer params - (cash - amount_needed))
        (params.committed_capital * params.capital_calls.tranche_size_pct))
      (params.committed_capital - called)

/-- Closed form of the routine as nested conditionals (definitional). -/
theorem trigger_capital_call_eq (params : FundParameters)
    (cash called t amount_needed : ℚ) :
    trigger_capital_call params cash called t amount_needed =
      (if amount_needed > cash ∨ cash - amount_needed < callBuffer params then
        (let amt := min (max (max 0 (callBuffer params - (cash - amount_needed)))
            (params.committed_capital * params.capital_calls.tranche_size_pct))
          (params.committed_capital - called)
         if amt > 1 then
          (⟨cash + amt, called + amt, [⟨-amt, t, -2⟩]⟩ : CallResult)
         else ⟨cash, called, []⟩)
      else ⟨cash, called, []⟩) := rfl

/-- Claim C1: with capital already called at most the commitment and a
nonnegative standard tranche, the capital-call routine triggers exactly when
the immediate need exceeds cash or covering it would drop cash below the
buffer; when triggered the candidate amount is
min(max(buffer - (c - a), one tranche), committed - called); if that amount
exceeds the one-dollar de-minimis threshold then cash and called capital grow
by exactly it and exactly one tag -2 ledger entry of that magnitude at the
current time is appended, otherwise nothing changes; and the resulting total
called capital never exceeds the commitment. -/
theorem trigger_capital_call_spec (params : FundParameters)
    (cash called t amount_needed : ℚ)
    (hk : called ≤ params.committed_capital)
    (htr : 0 ≤ params.committed_capital * params.capital_calls.tranche_size_pct) :
    ((amount_needed > cash ∨ cash - amount_needed < callBuffer params) →
        (1 < claimCallAmount params cash called amount_needed →
          trigger_capital_call params cash called t amount_needed =
            ⟨cash + claimCallAmount params cash called amount_needed,
             called + claimCallAmount params cash called amount_needed,
             [⟨-(claimCallAmount params cash called amount_needed), t, -2⟩]⟩) ∧
        (claimCallAmount params cash called amount_needed ≤ 1 →
          trigger_capital_call params cash called t amount_needed = ⟨cash, called, []⟩)) ∧
     (¬(amount_needed > cash ∨ cash - amount_needed < callBuffer params) →
        trigger_capital_call params cash called t amount_needed = ⟨cash, called, []⟩) ∧
     (trigger_capital_call params cash called t amount_needed).called ≤
       params.committed_capital := by
  -- the code's max(max 0 (buffer - (c - a))) tranche equals the claim's
  -- max (buffer - (c - a)) tranche because the tranche is nonnegative
  have hmax : min (max (max 0 (callBuffer params - (cash - amount_needed)))
      (params.committed_capital * params.capital_calls.tranche_size_pct))
      (params.committed_capital - called)
      = claimCallAmount params cash called amount_needed := by
    unfold claimCallAmount
    rw [max_comm 0 (callBuffer params - (cash - amount_needed)), max_assoc,
      max_eq_right htr]
  rw [trigger_capital_call_eq, hmax]
  refine ⟨fun htrig => ?_, fun htrig => ?_, ?_⟩
  · rw [if_pos htrig]
    exact ⟨fun h1 => if_pos h1, fun h1 => if_neg (not_lt.mpr h1)⟩
  · rw [if_neg htrig]
  · by_cases htrig : amount_needed > cash ∨ cash - amount_needed < callBuffer params
    · rw [if_pos htrig]
      by_cases h1 : claimCallAmount params cash called amount_needed > 1
      · rw [if_pos h1]
        have h2 : claimCallAmount params cash called amount_needed ≤
            params.committed_capital - called := min_le_right _ _
        show called + claimCallAmount params cash called amount_needed ≤ _
        linarith
      · rw [if_neg h1]; exact hk
    · rw [if_neg htrig]; exact hk

/-- Witness for the C1 theorem at concrete inputs: committed capital 1000000,
tranche 10 pct, buffer 50 pct of a tranche, cash 0, nothing called yet, an
immediate need of 20000: the routine calls one full tranche of 100000. -/
theorem trigger_capital_call_spec_witness :
    trigger_capital_call
      ⟨1000000, 60, 1/50, 1/100, ⟨1/10, 1/2⟩, ⟨1, 1/5, 2/25, 1/100⟩⟩ 0 0 0 20000 =
      ⟨100000, 100000, [⟨-100000, 0, -2⟩]⟩ := by
  have h := trigger_capital_call_spec
    ⟨1000000, 60, 1/50, 1/100, ⟨1/10, 1/2⟩, ⟨1, 1/5, 2/25, 1/100⟩⟩
    0 0 0 20000 (by norm_num) (by norm_num)
  have h2 := (h.1 (by norm_num [callBuffer])).1
    (by norm_num [claimCallAmount, callBuffer])
  rw [h2]
  norm_num [claimCallAmount, callBuffer]

/-- Stage parameters from parameters.py (the fields the claims use). -/
structure StageParams where
  prob_to_next_stage : Option ℚ
  prob_to_exit : ℚ
  prob_to_fail : ℚ
  time_in_stage_months : ℚ
  min_valuation : ℚ
  max_valuation : ℚ
  deriving DecidableEq, Repr

/-- The ordered stage catalog: stages_order plus the per-stage parameters
(FundParameters.stages_order / FundParameters.stages in parameters.py). -/
structure StageCatalog where
  stages_order : List String
  stages : String → StageParams

/-- engine.py, _get_next_milestone_outcome (lines 172-174): the basic
outcomes exit and fail, always available, with their stage probabilities. -/
def milestoneBase (cat : StageCatalog) (current_stage : String) :
    List (String × ℚ) :=
  [(("exit" : String), (cat.stages current_stage).prob_to_exit),
   (("fail" : String), (cat.stages current_stage).prob_to_fail)]

/-- engine.py, _get_next_milestone_outcome (lines 149-196): the choice list
and weight list built for the categorical draw.  The base outcomes exit and
fail are always present; the next stage is appended only when
prob_to_next_stage is not None, is positive, and the company is not already
in the final stage of stages_order. -/
def milestoneChoices (cat : StageCatalog) (current_stage : String) :
    List (String × ℚ) :=
  match (cat.stages current_stage).prob_to_next_stage with
  | none => milestoneBase cat current_stage
  | some p =>
    if 0 < p then
      if cat.stages_order.indexOf current_stage < cat.stages_order.length - 1 then
        match cat.stages_order.get? (cat.stages_order.indexOf current_stage + 1) with
        | some next_stage_name => milestoneBase cat current_stage ++ [(next_stage_name, p)]
        | none => milestoneBase cat current_stage
      else milestoneBase cat current_stage
    else milestoneBase cat current_stage

/-- engine.py, _get_next_milestone_outcome: normalization and draw.  The
random categorical draw of rng.choice is modelled by an arbitrary index into
the choice list (reduced modulo its length); when the probability total is
not positive the function short-circuits to fail, mirroring the explicit
fallback in the source. -/
def get_next_milestone_outcome (cat : StageCatalog) (current_stage : String)
    (draw : ℕ) : String :=
  let cps := milestoneChoices cat current_stage
  let total := (cps.map Prod.snd).sum
  if total ≤ 0 then ("fail")
  else (cps.getD (draw % cps.length) (("fail"), 0)).1

/-- Case equation: no configured next-stage probability. -/
theorem milestoneChoices_none (cat : StageCatalog) (cur : String)
    (h : (cat.stages cur).prob_to_next_stage = none) :
    milestoneChoices cat cur = milestoneBase cat cur := by
  unfold milestoneChoices; rw [h]

/-- Case equation: a configured next-stage probability. -/
theorem milestoneChoices_some (cat : StageCatalog) (cur : String) (p : ℚ)
    (h : (cat.stages cur).prob_to_next_stage = some p) :
    milestoneChoices cat cur =
      (if 0 < p then
        if cat.stages_order.indexOf cur < cat.stages_order.length - 1 then
          match cat.stages_order.get? (cat.stages_order.indexOf cur + 1) with
          | some next_stage_name => milestoneBase cat cur ++ [(next_stage_name, p)]
          | none => milestoneBase cat cur
        else milestoneBase cat cur
      else milestoneBase cat cur) := by
  unfold milestoneChoices; rw [h]

/-- Every element of the choice list is exit, fail, or the next stage in
stages_order, the latter only when prob_to_next_stage is positive and the
stage is not the last of stages_order. -/
theorem milestoneChoices_mem (cat : StageCatalog) (cur : String)
    (c : String × ℚ) (hc : c ∈ milestoneChoices cat cur) :
    c.1 = ("exit") ∨ c.1 = ("fail") ∨
      (some c.1 = cat.stages_order.get? (cat.stages_order.indexOf cur + 1) ∧
       0 < (cat.stages cur).prob_to_next_stage.getD 0 ∧
       cat.stages_order.indexOf cur < cat.stages_order.length - 1) := by
  have hbase : ∀ x ∈ milestoneBase cat cur, x.1 = ("exit") ∨ x.1 = ("fail") := by
    intro x hx
    simp only [milestoneBase, List.mem_cons, List.not_mem_nil, or_false] at hx
    rcases hx with h | h
    · left; rw [h]
    · right; rw [h]
  rcases hp : (cat.stages cur).prob_to_next_stage with _ | p
  · rw [milestoneChoices_none cat cur hp] at hc
    rcases hbase c hc with h | h
    · exact Or.inl h
    · exact Or.inr (Or.inl h)
  · rw [milestoneChoices_some cat cur p hp] at hc
    by_cases hpos : 0 < p
    · rw [if_pos hpos] at hc
      by_cases hlast : cat.stages_order.indexOf cur < cat.stages_order.length - 1
      · rw [if_pos hlast] at hc
        rcases hg : cat.stages_order.get? (cat.stages_order.indexOf cur + 1) with _ | nxt
        · rw [hg] at hc
          rcases hbase c hc with h | h
          · exact Or.inl h
          · exact Or.inr (Or.inl h)
        · rw [hg] at hc
          have hc2 : c ∈ milestoneBase cat cur ++ [(nxt, p)] := hc
          rcases List.mem_append.mp hc2 with h | h
          · rcases hbase c h with h2 | h2
            · exact Or.inl h2
            · exact Or.inr (Or.inl h2)
          · have h2 : c = (nxt, p) := List.mem_singleton.mp h
            refine Or.inr (Or.inr ⟨by subst h2; rfl, by simpa using hpos, hlast⟩)
      · rw [if_neg hlast] at hc
        rcases hbase c hc with h | h
        · exact Or.inl h
        · exact Or.inr (Or.inl h)
    · rw [if_neg hpos] at hc
      rcases hbase c hc with h | h
      · exact Or.inl h
      · exact Or.inr (Or.inl h)

/-- The choice list is never empty (exit and fail are always present). -/
theorem milestoneChoices_length_pos (cat : StageCatalog) (cur : String) :
    0 < (milestoneChoices cat cur).length := by
  rcases hp : (cat.stages cur).prob_to_next_stage with _ | p
  · rw [milestoneChoices_none cat cur hp]; simp [milestoneBase]
  · rw [milestoneChoices_some cat cur p hp]
    by_cases hpos : 0 < p
    · rw [if_pos hpos]
      by_cases hlast : cat.stages_order.indexOf cur < cat.stages_order.length - 1
      · rw [if_pos hlast]
        rcases cat.stages_order.get? (cat.stages_order.indexOf cur + 1) with _ | nxt <;>
          simp [milestoneBase]
      · rw [if_neg hlast]; simp [milestoneBase]
    · rw [if_neg hpos]; simp [milestoneBase]

/-- Dividing each weight by the total and summing gives total / total. -/
theorem sum_map_div (l : List (String × ℚ)) (c : ℚ) :
    (l.map fun x => x.2 / c).sum = (l.map Prod.snd).sum / c := by
  induction l with
  | nil => simp
  | cons a rest ih => simp [ih, add_div]

/-- Claim C7: the milestone-outcome function returns exit, fail, or the next
stage of stages_order (the next stage being a candidate only when its
transition probability is positive and the company is not in the last
stage); the weights it draws from, normalized by their total, sum to one
whenever the total is positive; and a nonpositive total forces the fail
outcome instead of an error. -/
theorem get_next_milestone_outcome_spec (cat : StageCatalog)
    (cur : String) (draw : ℕ) :
    (get_next_milestone_outcome cat cur draw = ("exit") ∨
     get_next_milestone_outcome cat cur draw = ("fail") ∨
     (some (get_next_milestone_outcome cat cur draw) =
        cat.stages_order.get? (cat.stages_order.indexOf cur + 1) ∧
      0 < (cat.stages cur).prob_to_next_stage.getD 0 ∧
      cat.stages_order.indexOf cur < cat.stages_order.length - 1)) ∧
    (0 < ((milestoneChoices cat cur).map Prod.snd).sum →
      ((milestoneChoices cat cur).map
        (fun c => c.2 / ((milestoneChoices cat cur).map Prod.snd).sum)).sum = 1) ∧
    (((milestoneChoices cat cur).map Prod.snd).sum ≤ 0 →
      get_next_milestone_outcome cat cur draw = ("fail")) := by
  refine ⟨?_, ?_, ?_⟩
  · by_cases h : ((milestoneChoices cat cur).map Prod.snd).sum ≤ 0
    · right; left
      unfold get_next_milestone_outcome
      rw [if_pos h]
    · have hout : get_next_milestone_outcome cat cur draw =
          ((milestoneChoices cat cur).getD
            (draw % (milestoneChoices cat cur).length) (("fail"), 0)).1 := by
        unfold get_next_milestone_outcome
        rw [if_neg h]
      have hlen : 0 < (milestoneChoices cat cur).length :=
        milestoneChoices_length_pos cat cur
      have hmemIdx : draw % (milestoneChoices cat cur).length <
          (milestoneChoices cat cur).length := Nat.mod_lt _ hlen
      have hmem : (milestoneChoices cat cur).getD
          (draw % (milestoneChoices cat cur).length) (("fail"), 0) ∈
            milestoneChoices cat cur := by
        rw [List.getD_eq_getElem _ _ hmemIdx]
        exact List.getElem_mem _
      rw [hout]
      exact milestoneChoices_mem cat cur _ hmem
  · intro hpos
    rw [sum_map_div]
    exact div_self (ne_of_gt hpos)
  · intro h
    unfold get_next_milestone_outcome
    rw [if_pos h]

/-- Witness for the C7 theorem on a concrete two-stage catalog: in the
terminal stage with a nonpositive probability total the outcome is fail. -/
theorem get_next_milestone_outcome_spec_witness :
    get_next_milestone_outcome
      ⟨[("Seed"), ("Series A")],
        fun s => if s = ("Seed") then ⟨some (1/2), 1/4, 1/4, 18, 100000, 10000000⟩
          else ⟨some 0, 0, 0, 24, 100000, 10000000⟩⟩
      ("Series A") 0 = ("fail") := by
  have h := get_next_milestone_outcome_spec
    ⟨[("Seed"), ("Series A")],
      fun s => if s = ("Seed") then ⟨some (1/2), 1/4, 1/4, 18, 100000, 10000000⟩
        else ⟨some 0, 0, 0, 24, 100000, 10000000⟩⟩
    ("Series A") 0
  refine h.2.2 ?_
  have hs : ¬(("Series A") : String) = ("Seed") := by decide
  rw [milestoneChoices_some _ _ 0 (by rfl), if_neg (lt_irrefl (0:ℚ))]
  simp only [milestoneBase, List.map_cons, List.map_nil, List.sum_cons,
    List.sum_nil, if_neg hs]
  norm_num

/-- engine.py, round_to_hundred_thousand (line 36): Python round (banker's
rounding, half to even) of number / 100000, times 100000. -/
def python_round (q : ℚ) : ℤ :=
  if q - ⌊q⌋ < 1/2 then ⌊q⌋
  else if 1/2 < q - ⌊q⌋ then ⌊q⌋ + 1
  else if ⌊q⌋ % 2 = 0 then ⌊q⌋ else ⌊q⌋ + 1

/-- engine.py, round_to_hundred_thousand. -/
def round_to_hundred_thousand (q : ℚ) : ℚ :=
  ((python_round (q / 100000) : ℤ) : ℚ) * 100000

/-- engine.py line 482: on an exit outcome the handler reads
stages_order[stages_order.index(current_stage) + 1].  The Option models the
IndexError Python raises when the index is out of range. -/
def exit_stage_lookup (order : List String) (current_stage : String) :
    Option String :=
  order.get? (order.indexOf current_stage + 1)

/-- engine.py lines 485-489: realized exit valuation from a sampled
progression valuation, clamped to the exit-target stage's bounds and rounded
to the nearest 100000, and the proceeds at the company's ownership. -/
def exit_valuation_calc (exit_stage : StageParams) (sample : ℚ) : ℚ :=
  round_to_hundred_thousand (min exit_stage.max_valuation
    (max exit_stage.min_valuation sample))

/-- Claim C5: the exit handler does not evaluate without error for a company
in the terminal stage.  With the standard four-stage order, an exit outcome
is still drawn in the terminal stage (its exit probability is positive while
only its transition probability is zero), yet the exit-target stage lookup
of engine.py line 482 runs off the end of stages_order - the Python
IndexError the Option models as none - so no clamped exit valuation is ever
produced there. -/
theorem exit_from_terminal_stage_errors :
    get_next_milestone_outcome
      ⟨[("Pre-Seed"), ("Seed"), ("Series A"), ("Series B")],
        fun s => if s = ("Series B") then ⟨some 0, 1/2, 1/2, 24, 100000, 10000000000⟩
          else ⟨some (1/2), 1/4, 1/4, 18, 100000, 10000000000⟩⟩
      ("Series B") 0 = ("exit") ∧
    exit_stage_lookup [("Pre-Seed"), ("Seed"), ("Series A"), ("Series B")]
      ("Series B") = none ∧
    (∀ cur, exit_stage_lookup [("Pre-Seed"), ("Seed"), ("Series A"), ("Series B")] cur
        = none ↔ 3 ≤ List.indexOf cur [("Pre-Seed"), ("Seed"), ("Series A"), ("Series B")]) := by
  refine ⟨?_, by decide, ?_⟩
  · unfold get_next_milestone_outcome
    rw [milestoneChoices_some _ _ 0 (by rfl), if_neg (lt_irrefl (0:ℚ))]
    norm_num [milestoneBase, List.getD]
  · intro cur
    unfold exit_stage_lookup
    rw [List.get?_eq_none]
    simp only [List.length]
    omega

/-- Result of processing one FEE_PAYMENT event: updated cash, capital
called, the cash-back tracker, the capital-constrained flag, the ledger
entries appended during the event, and whether the event loop breaks. -/
structure FeeStepResult where
  cash : ℚ
  called : ℚ
  cash_back_tracker : ℕ
  capital_constrained : Bool
  appended : List LedgerEntry
  loop_break : Bool
  deriving DecidableEq, Repr

/-- engine.py, FEE_PAYMENT handler (lines 299-350).  Direct transcription:
the commitment-period test picks the fee base (committed capital during the
commitment period, else the invested capital of active companies, passed in
as active_invested); the wind-down test sweeps the cash balance to a tag
9999 entry, zeroes cash, sets the tracker and breaks the loop; otherwise a
capital call covers the fee if possible and an uncovered fee sets the
capital-constrained flag. -/
def fee_payment_step (params : FundParameters) (t active_invested cash called : ℚ)
    (tracker : ℕ) (constrained : Bool) : FeeStepResult :=
  if params.investment_period_months ≤ t ∧
      (if t ≤ params.investment_period_months then params.committed_capital
       else active_invested) = 0 ∧ tracker = 0 then
    ⟨0, called, 1, constrained, [⟨cash, t, 9999⟩], true⟩
  else
    let fee_base := if t ≤ params.investment_period_months
      then params.committed_capital else active_invested
    let fee_rate := if t ≤ params.investment_period_months
      then params.mgmt_fee_commitment_period_rate
      else params.mgmt_fee_post_commitment_period_rate
    let fee_amount := fee_base * fee_rate
    let cr := trigger_capital_call params cash called t fee_amount
    if fee_amount ≤ cr.cash then
      ⟨cr.cash - fee_amount, cr.called, tracker, constrained,
        cr.appended ++ [⟨-fee_amount, t, -1⟩], false⟩
    else
      ⟨cr.cash, cr.called, tracker, true, cr.appended, false⟩

/-- Claim C6 counterexample: at an event time exactly equal to the end of
the investment period, with no active companies (active fee base zero) and
no prior wind-down, the handler does not wind the fund down as the claim
states.  Because the commitment-period test uses a non-strict comparison,
the fee base at that instant is the committed capital, so a management fee
is charged instead: the loop does not break, no tag 9999 entry is appended,
and a tag -1 fee entry of 20000 is recorded. -/
theorem fee_wind_down_at_period_end_fails :
    (fee_payment_step ⟨1000000, 60, 1/50, 1/100, ⟨1/10, 1/2⟩, ⟨1, 1/5, 2/25, 1/100⟩⟩
        60 0 0 0 0 false).loop_break = false ∧
    (fee_payment_step ⟨1000000, 60, 1/50, 1/100, ⟨1/10, 1/2⟩, ⟨1, 1/5, 2/25, 1/100⟩⟩
        60 0 0 0 0 false).appended.filter (fun e => e.tag == 9999) = [] ∧
    (fee_payment_step ⟨1000000, 60, 1/50, 1/100, ⟨1/10, 1/2⟩, ⟨1, 1/5, 2/25, 1/100⟩⟩
        60 0 0 0 0 false).appended.filter (fun e => e.tag == -1) =
      [⟨-20000, 60, -1⟩] ∧
    ((60 : ℚ) ≥ (1000000 : ℚ) * 0 + 60 ∧ (0 : ℚ) = 0 ∧ (0 : ℕ) = 0) := by
  refine ⟨?_, ?_, ?_, by norm_num⟩ <;>
    · show _ = _
      simp only [fee_payment_step, trigger_capital_call]
      norm_num [min_def, max_def]

/-- Claim C6 (amended): strictly after the end of the investment period,
with a zero active-company fee base and no prior wind-down, a FEE_PAYMENT
event winds the fund down: one ledger entry carrying the entire cash balance
with tag 9999 at the event time, cash set to zero, the tracker set, no fee
entry, and the event loop terminated.  Capital called and the constrained
flag are untouched. -/
theorem fee_wind_down_spec (params : FundParameters) (t cash called : ℚ)
    (constrained : Bool) (h : params.investment_period_months < t) :
    fee_payment_step params t 0 cash called 0 constrained =
      ⟨0, called, 1, constrained, [⟨cash, t, 9999⟩], true⟩ := by
  have h1 : ¬(t ≤ params.investment_period_months) := not_le.mpr h
  rw [fee_payment_step, if_pos]
  refine ⟨le_of_lt h, ?_, rfl⟩
  rw [if_neg h1]

/-- Witness for the amended C6 theorem: period 60 months, event at month 72,
cash 500 on hand: the full 500 is swept to a tag 9999 entry and the loop
breaks. -/
theorem fee_wind_down_spec_witness :
    fee_payment_step ⟨1000000, 60, 1/50, 1/100, ⟨1/10, 1/2⟩, ⟨1, 1/5, 2/25, 1/100⟩⟩
        72 0 500 300000 0 false =
      ⟨0, 300000, 1, false, [⟨500, 72, 9999⟩], true⟩ :=
  fee_wind_down_spec ⟨1000000, 60, 1/50, 1/100, ⟨1/10, 1/2⟩, ⟨1, 1/5, 2/25, 1/100⟩⟩
    72 500 300000 false (by norm_num)

/-- utils.py, xirr (lines 13-32).  The Brent root solve inside the
try/except is modelled by an arbitrary total solver returning an Option (the
caught ValueError/RuntimeError is none); everything before it - the
guard that demands both a positive and a negative flow, the time-unit
divisor and the shift of all times so the earliest flow sits at zero - is
transcribed directly. -/
def xirr (solver : List (ℚ × ℚ) → Option ℚ) (cash_flows : List (ℚ × ℚ))
    (time_unit : String) : Option ℚ :=
  if cash_flows.isEmpty ||
      !((cash_flows.any fun cf => decide (0 < cf.1)) &&
        (cash_flows.any fun cf => decide (cf.1 < 0))) then
    none
  else
    let time_divisor : ℚ :=
      if time_unit = ("months") then 12 else if time_unit = ("years") then 1 else 12
    let start_time := ((cash_flows.map Prod.snd).foldl min
      ((cash_flows.map Prod.snd).headD 0))
    solver (cash_flows.map fun cf => (cf.1, (cf.2 - start_time) / time_divisor))

/-- engine.py lines 685-686: a None IRR becomes the sentinel -1.0 before it
is stored in the PortfolioResult. -/
def irr_or_sentinel (o : Option ℚ) : ℚ :=
  match o with
  | none => -1
  | some x => x

/-- Claim C8: for an empty cash-flow list, or one with no strictly positive
amount, or one with no strictly negative amount, xirr returns the
no-solution sentinel None regardless of what the root solver would do, and
the simulation stores the sentinel -1.0 for it instead of propagating an
exception. -/
theorem xirr_sentinel_spec (solver : List (ℚ × ℚ) → Option ℚ)
    (cash_flows : List (ℚ × ℚ)) (time_unit : String)
    (h : cash_flows = [] ∨ (∀ cf ∈ cash_flows, cf.1 ≤ 0) ∨
      (∀ cf ∈ cash_flows, 0 ≤ cf.1)) :
    xirr solver cash_flows time_unit = none ∧
    irr_or_sentinel (xirr solver cash_flows time_unit) = -1 := by
  have hnone : xirr solver cash_flows time_unit = none := by
    rcases h with h | h | h
    · subst h; rfl
    · have hpos : (cash_flows.any fun cf => decide (0 < cf.1)) = false := by
        rw [List.any_eq_false]
        intro cf hcf
        simpa using not_lt.mpr (h cf hcf)
      unfold xirr
      rw [hpos]
      simp
    · have hneg : (cash_flows.any fun cf => decide (cf.1 < 0)) = false := by
        rw [List.any_eq_false]
        intro cf hcf
        simpa using not_lt.mpr (h cf hcf)
      unfold xirr
      rw [hneg]
      simp
  exact ⟨hnone, by rw [hnone]; rfl⟩

/-- Witness for the C8 theorem: two all-positive flows give None and the
stored net IRR sentinel -1, for a solver that would otherwise return 0. -/
theorem xirr_sentinel_spec_witness :
    xirr (fun _ => some 0) [((100 : ℚ), (0 : ℚ)), (121, 24)] ("months") = none ∧
    irr_or_sentinel (xirr (fun _ => some 0) [((100 : ℚ), (0 : ℚ)), (121, 24)]
      ("months")) = -1 :=
  xirr_sentinel_spec (fun _ => some 0) [((100 : ℚ), (0 : ℚ)), (121, 24)] ("months")
    (Or.inr (Or.inr (by
      intro cf hcf
      simp only [List.mem_cons, List.not_mem_nil, or_false] at hcf
      rcases hcf with h | h <;> rw [h] <;> norm_num)))

/-- An event of the discrete-event queue: time in months, the event kind
string, and the integer payload (the company id of a MILESTONE event). -/
structure Event where
  time : ℚ
  kind : String
  payload : ℤ
  deriving DecidableEq, Repr

/-- heapq.heappop: remove the earliest event.  Ties keep the earlier list
element, matching a stable pop of the heap for the frame claim below. -/
def popMin : List Event → Option (Event × List Event)
  | [] => none
  | e :: rest =>
    match popMin rest with
    | none => some (e, [])
    | some (m, rest') => if e.time ≤ m.time then some (e, rest) else some (m, e :: rest')

/-- The engine-loop state named by the frame claim: cash on hand, capital
called, the portfolio (company ids), the gross ledger, the per-year deal
counters, the investments-made counter and the capital-constrained flag. -/
structure LoopState where
  cash_on_hand : ℚ
  capital_called : ℚ
  portfolio : List ℕ
  gross_cash_flows : List LedgerEntry
  deals_per_year : List (ℕ × ℕ)
  investments_made : ℕ
  capital_constrained_flag : Bool

/-- engine.py, main event loop (lines 284-290 and the loop skeleton): pop
the earliest event; if its time exceeds the actual (extension-adjusted)
lifespan, discard it and continue; otherwise run the handler (which may
mutate state, push new events and, on wind-down, break).  The handler is a
parameter: the frame claim holds for every handler, in particular the
engine's. -/
def run_event_loop (actual_fund_lifespan : ℚ)
    (handler : Event → LoopState → LoopState × List Event × Bool) :
    ℕ → LoopState → List Event → LoopState
  | 0, st, _ => st
  | fuel + 1, st, queue =>
    match popMin queue with
    | none => st
    | some (e, rest) =>
      if actual_fund_lifespan < e.time then
        run_event_loop actual_fund_lifespan handler fuel st rest
      else
        let step := handler e st
        if step.2.2 then step.1
        else run_event_loop actual_fund_lifespan handler fuel step.1
          (step.2.1.foldl (fun q ev => ev :: q) rest)

/-- Claim C9: popping an event whose time exceeds the actual fund lifespan
leaves every component of the fund state untouched and continues the loop on
exactly the remaining queue: the iteration is the identity on the state, the
handler is never invoked, and the discarded event is not re-enqueued. -/
theorem discard_event_beyond_lifespan (actual_fund_lifespan : ℚ)
    (handler : Event → LoopState → LoopState × List Event × Bool)
    (fuel : ℕ) (st : LoopState) (queue : List Event) (e : Event)
    (rest : List Event) (hpop : popMin queue = some (e, rest))
    (ht : actual_fund_lifespan < e.time) :
    run_event_loop actual_fund_lifespan handler (fuel + 1) st queue =
      run_event_loop actual_fund_lifespan handler fuel st rest := by
  rw [run_event_loop, hpop]
  exact if_pos ht

/-- Witness for the C9 theorem: a 120-month fund whose only remaining event
sits at month 130 ends the loop with the state unchanged. -/
theorem discard_event_beyond_lifespan_witness :
    run_event_loop 120 (fun _ st => (st, [], false)) 1
      ⟨0, 0, [], [], [], 0, false⟩ [⟨130, ("FEE_PAYMENT"), 0⟩] =
      ⟨0, 0, [], [], [], 0, false⟩ := by
  rw [discard_event_beyond_lifespan 120 (fun _ st => (st, [], false)) 0
    ⟨0, 0, [], [], [], 0, false⟩ [⟨130, ("FEE_PAYMENT"), 0⟩]
    ⟨130, ("FEE_PAYMENT"), 0⟩ [] rfl (by norm_num)]
  rfl

/-- The engine-run state relevant to ledger tagging: the gross ledger, the
investments_made counter, and the ids of companies currently in the
portfolio (engine.py lines 225-233). -/
structure EngState where
  gross_cash_flows : List LedgerEntry
  investments_made : ℕ
  portfolio : List ℕ
  deriving DecidableEq, Repr

/-- The ledger/portfolio mutation sites of _run_one_event_driven_simulation,
one constructor per append site of gross_cash_flows:
capital_call - engine.py line 138 (tag -2, guarded by the amount exceeding
the one-dollar de-minimis threshold); fee_paid - line 342 (tag -1);
invest - lines 416-433 (the counter is incremented first, the new company id
is the incremented counter, the company joins the portfolio and the
investment is logged under that id); follow_on - line 593 and
exit_proceeds - lines 512/520/524 (both use the id of a company present in
the portfolio; an exit removes the company, line 531); cash_sweep - lines
323/660 (tag 9999). -/
inductive EngStep : EngState → EngState → Prop where
  | capital_call (s : EngState) (amt t : ℚ) (h : 1 < amt) :
      EngStep s ⟨s.gross_cash_flows ++ [⟨-amt, t, -2⟩], s.investments_made, s.portfolio⟩
  | fee_paid (s : EngState) (fee t : ℚ) :
      EngStep s ⟨s.gross_cash_flows ++ [⟨-fee, t, -1⟩], s.investments_made, s.portfolio⟩
  | invest (s : EngState) (amt t : ℚ) :
      EngStep s ⟨s.gross_cash_flows ++ [⟨-amt, t, ((s.investments_made + 1 : ℕ) : ℤ)⟩],
        s.investments_made + 1, (s.investments_made + 1) :: s.portfolio⟩
  | follow_on (s : EngState) (cid : ℕ) (amt t : ℚ) (h : cid ∈ s.portfolio) :
      EngStep s ⟨s.gross_cash_flows ++ [⟨-amt, t, (cid : ℤ)⟩], s.investments_made, s.portfolio⟩
  | exit_proceeds (s : EngState) (cid : ℕ) (amt t : ℚ) (h : cid ∈ s.portfolio) :
      EngStep s ⟨s.gross_cash_flows ++ [⟨amt, t, (cid : ℤ)⟩], s.investments_made,
        s.portfolio.erase cid⟩
  | cash_sweep (s : EngState) (amt t : ℚ) :
      EngStep s ⟨s.gross_cash_flows ++ [⟨amt, t, 9999⟩], s.investments_made, s.portfolio⟩

/-- The empty starting state of a run (engine.py lines 225-233):
no transactions, investments_made = 0, empty portfolio. -/
def engInit : EngState := ⟨[], 0, []⟩

/-- Tag discipline maintained by every run: portfolio ids lie between 1 and
the deal counter, and every company-range ledger tag is at least 1. -/
def TagInv (s : EngState) : Prop :=
  (∀ cid ∈ s.portfolio, 1 ≤ cid ∧ cid ≤ s.investments_made) ∧
  (∀ e ∈ s.gross_cash_flows, 0 ≤ e.tag → 1 ≤ e.tag)

/-- One engine step preserves the tag discipline. -/
theorem EngStep.preserves_TagInv {s s' : EngState} (hstep : EngStep s s')
    (hinv : TagInv s) : TagInv s' := by
  obtain ⟨hport, hledger⟩ := hinv
  cases hstep with
  | capital_call amt t h =>
    refine ⟨hport, fun e he => ?_⟩
    dsimp only at he
    rcases List.mem_append.mp he with h1 | h1
    · exact hledger e h1
    · rw [List.mem_singleton.mp h1]
      intro h2
      exact absurd h2 (by norm_num)
  | fee_paid fee t =>
    refine ⟨hport, fun e he => ?_⟩
    dsimp only at he
    rcases List.mem_append.mp he with h1 | h1
    · exact hledger e h1
    · rw [List.mem_singleton.mp h1]
      intro h2
      exact absurd h2 (by norm_num)
  | invest amt t =>
    refine ⟨fun cid hc => ?_, fun e he => ?_⟩
    · dsimp only at hc ⊢
      rcases List.mem_cons.mp hc with h1 | h1
      · omega
      · have h2 := hport cid h1
        omega
    · dsimp only at he
      rcases List.mem_append.mp he with h1 | h1
      · exact fun h2 => hledger e h1 h2
      · rw [List.mem_singleton.mp h1]
        intro _
        dsimp only
        exact_mod_cast Nat.succ_le_succ (Nat.zero_le _)
  | follow_on cid amt t h =>
    refine ⟨hport, fun e he => ?_⟩
    dsimp only at he
    rcases List.mem_append.mp he with h1 | h1
    · exact hledger e h1
    · rw [List.mem_singleton.mp h1]
      intro _
      dsimp only
      exact_mod_cast (hport cid h).1
  | exit_proceeds cid amt t h =>
    refine ⟨fun c hc => hport c (List.mem_of_mem_erase hc), fun e he => ?_⟩
    dsimp only at he
    rcases List.mem_append.mp he with h1 | h1
    · exact hledger e h1
    · rw [List.mem_singleton.mp h1]
      intro _
      dsimp only
      exact_mod_cast (hport cid h).1
  | cash_sweep amt t =>
    refine ⟨hport, fun e he => ?_⟩
    dsimp only at he
    rcases List.mem_append.mp he with h1 | h1
    · exact hledger e h1
    · rw [List.mem_singleton.mp h1]
      intro _
      norm_num

/-- Claim C10: in every reachable engine state, company-range ledger tags
are at least 1 (ids come from the counter, incremented before assignment, so
tag 0 never appears), and hence the waterfall's strict id-positive company
filter (waterfall.py lines 74-76) and the engine's 0-less-or-equal-tag
gross-IRR filter (engine.py line 667) select exactly the same ledger
entries. -/
theorem company_tag_filters_agree (s : EngState)
    (h : Relation.ReflTransGen EngStep engInit s) :
    (∀ e ∈ s.gross_cash_flows, 0 ≤ e.tag → 1 ≤ e.tag) ∧
    (s.gross_cash_flows.filter (fun e => 0 ≤ e.tag ∧ e.tag < 9999) =
      s.gross_cash_flows.filter (fun e => 0 < e.tag ∧ e.tag < 9999)) := by
  have hinv : TagInv s := by
    induction h with
    | refl => exact ⟨fun c hc => absurd hc (List.not_mem_nil c), fun e he => absurd he (List.not_mem_nil e)⟩
    | tail hr hstep ih => exact hstep.preserves_TagInv ih
  refine ⟨hinv.2, ?_⟩
  apply List.filter_congr
  intro e he
  have h1 := hinv.2 e he
  by_cases h0 : (0 : ℤ) ≤ e.tag
  · have h2 : 0 < e.tag := lt_of_lt_of_le Int.zero_lt_one (h1 h0)
    simp [h0, h2]
  · have h2 : ¬(0 : ℤ) < e.tag := fun hlt => h0 (le_of_lt hlt)
    simp [h0, h2]

/-- Witness for the C10 theorem: a run that invests in the first company
(assigned id 1 = counter incremented from 0), collects exit proceeds under
that id, and sweeps the remainder, satisfies both filter equalities. -/
theorem company_tag_filters_agree_witness :
    (∀ e ∈ ([⟨-100, 3, 1⟩, ⟨250, 15, 1⟩, ⟨30, 15, 9999⟩] : List LedgerEntry),
      0 ≤ e.tag → 1 ≤ e.tag) ∧
    (([⟨-100, 3, 1⟩, ⟨250, 15, 1⟩, ⟨30, 15, 9999⟩] : List LedgerEntry).filter
        (fun e => 0 ≤ e.tag ∧ e.tag < 9999) =
      ([⟨-100, 3, 1⟩, ⟨250, 15, 1⟩, ⟨30, 15, 9999⟩] : List LedgerEntry).filter
        (fun e => 0 < e.tag ∧ e.tag < 9999)) := by
  have h1 : EngStep engInit ⟨[⟨-100, 3, 1⟩], 1, [1]⟩ := EngStep.invest engInit 100 3
  have h2 : EngStep ⟨[⟨-100, 3, 1⟩], 1, [1]⟩ ⟨[⟨-100, 3, 1⟩, ⟨250, 15, 1⟩], 1, []⟩ :=
    EngStep.exit_proceeds ⟨[⟨-100, 3, 1⟩], 1, [1]⟩ 1 250 15 (List.mem_singleton.mpr rfl)
  have h3 : EngStep ⟨[⟨-100, 3, 1⟩, ⟨250, 15, 1⟩], 1, []⟩
      ⟨[⟨-100, 3, 1⟩, ⟨250, 15, 1⟩, ⟨30, 15, 9999⟩], 1, []⟩ :=
    EngStep.cash_sweep ⟨[⟨-100, 3, 1⟩, ⟨250, 15, 1⟩], 1, []⟩ 30 15
  exact company_tag_filters_agree _
    (Relation.ReflTransGen.head h1 (Relation.ReflTransGen.head h2
      (Relation.ReflTransGen.single h3)))

/-- waterfall.py line 41: total fund life in whole years. -/
def total_fund_life_years (actual_fund_lifespan_months : ℚ) : ℕ :=
  (Int.ceil (actual_fund_lifespan_months / 12)).toNat

/-- waterfall.py lines 56-57: fund-year assignment of a transaction time,
floor((t - 1e-9)/12) + 1 clipped to [1, total years]. -/
def entryYear (total_years : ℕ) (t : ℚ) : ℤ :=
  min (max (Int.floor ((t - 1/1000000000) / 12) + 1) 1) (total_years : ℤ)

/-- waterfall.py lines 69-71: capital called in a fund-year
(tag -2 entries, absolute amounts). -/
def annual_capital_calls (total_years : ℕ) (ledger : List LedgerEntry) (y : ℤ) : ℚ :=
  ((ledger.filter fun e => e.tag == -2 && entryYear total_years e.time_months == y).map
    fun e => |e.amount|).sum

/-- waterfall.py lines 74-76: positive company proceeds in a fund-year
(tags strictly between 0 and 9999, positive amounts). -/
def annual_gross_proceeds (total_years : ℕ) (ledger : List LedgerEntry) (y : ℤ) : ℚ :=
  ((ledger.filter fun e => decide (0 < e.tag) && decide (e.tag < 9999) &&
      decide (0 < e.amount) && entryYear total_years e.time_months == y).map
    fun e => e.amount).sum

/-- waterfall.py lines 79-81: cash swept back to LPs in a fund-year
(tag 9999 entries, absolute amounts). -/
def annual_cash_back (total_years : ℕ) (ledger : List LedgerEntry) (y : ℤ) : ℚ :=
  ((ledger.filter fun e => e.tag == 9999 && entryYear total_years e.time_months == y).map
    fun e => |e.amount|).sum

/-- waterfall.py lines 190-205: extra preferred return accrued on mid-year
capital calls, linear monthly accrual for the months remaining in the call's
fund-year; zero when the year has no calls. -/
def mid_year_pref_increase (wf : Waterfall) (total_years : ℕ)
    (ledger : List LedgerEntry) (y : ℤ) : ℚ :=
  let calls := ledger.filter fun e =>
    e.tag == -2 && entryYear total_years e.time_months == y
  if calls.isEmpty then 0
  else
    let monthly_rate := wf.preferred_return_pct / 12
    let adjusted_sum := (calls.map fun e =>
      e.amount * (1 + monthly_rate * (((12 * y : ℤ) : ℚ) - e.time_months))).sum
    (-adjusted_sum) * (1 - wf.gp_capital_contribution_pct) -
      annual_capital_calls total_years ledger y * (1 - wf.gp_capital_contribution_pct)

/-- The cross-year waterfall state (waterfall.py lines 111-135), carried
from one fund-year to the next. -/
structure WFState where
  lp_contributions_total : ℚ
  gp_contributions_total : ℚ
  lp_distributions_total : ℚ
  gp_distributions_total : ℚ
  lp_preference_basis : ℚ
  cum_pref_payments : ℚ
  lp_pref_balance : ℚ
  lp_carry_total : ℚ
  gp_carry_total : ℚ
  deriving DecidableEq, Repr

/-- All-zero opening state (waterfall.py lines 116-130). -/
def initWFState : WFState := ⟨0, 0, 0, 0, 0, 0, 0, 0, 0⟩

/-- The per-year aggregates read from the ledger before a year is processed. -/
structure YearInput where
  calls : ℚ
  proceeds : ℚ
  cash_back : ℚ
  mid_year_increase : ℚ
  deriving DecidableEq, Repr

/-- The per-year payments recorded by the waterfall audit log. -/
structure YearRec where
  distributable : ℚ
  lp_roc_payment : ℚ
  gp_roc_payment : ℚ
  pref_payment : ℚ
  gp_catch_up_payment : ℚ
  lp_catch_up_share : ℚ
  gp_final_split : ℚ
  lp_final_split : ℚ
  deriving DecidableEq, Repr

/-- waterfall.py line 113: the LP share of each capital call. -/
def lp_commit_pct (wf : Waterfall) : ℚ := 1 - wf.gp_capital_contribution_pct

/-- waterfall.py line 153: outstanding preferred balance recovered at the
start of a year from the carried preference basis minus unreturned LP
capital. -/
def opening_pref_balance (st : WFState) : ℚ :=
  st.lp_preference_basis - (st.lp_contributions_total - st.lp_distributions_total)

/-- waterfall.py lines 162-169: the opening balance plus one year of
preferred return accrued on a positive preference basis. -/
def accrued_pref_balance (wf : Waterfall) (st : WFState) : ℚ :=
  opening_pref_balance st +
    (if 0 < st.lp_preference_basis
     then st.lp_preference_basis * wf.preferred_return_pct else 0)

/-- waterfall.py lines 190-205 applied: the preference balance entering the
distribution tiers, after the mid-year accrual on this year's calls. -/
def pref_balance_before_dist (wf : Waterfall) (i : YearInput) (st : WFState) : ℚ :=
  accrued_pref_balance wf st + i.mid_year_increase

/-- waterfall.py lines 217-219: cumulative LP contributions after this
year's calls are split at the LP commitment percentage. -/
def lp_contributions_after (wf : Waterfall) (i : YearInput) (st : WFState) : ℚ :=
  st.lp_contributions_total + i.calls * lp_commit_pct wf

/-- waterfall.py lines 218-220: cumulative GP contributions likewise. -/
def gp_contributions_after (wf : Waterfall) (i : YearInput) (st : WFState) : ℚ :=
  st.gp_contributions_total + i.calls * wf.gp_capital_contribution_pct

/-- waterfall.py line 236: distributable cash entering tier 1, this year's
proceeds plus swept cash. -/
def distributable_cash_0 (i : YearInput) : ℚ := i.proceeds + i.cash_back

/-- waterfall.py lines 251-252: unreturned capital entering tier 1. -/
def total_unreturned_capital (wf : Waterfall) (i : YearInput) (st : WFState) : ℚ :=
  (lp_contributions_after wf i st + gp_contributions_after wf i st) -
    (st.lp_distributions_total + st.gp_distributions_total)

/-- waterfall.py line 253: tier 1 return of capital. -/
def roc_payment (wf : Waterfall) (i : YearInput) (st : WFState) : ℚ :=
  min (distributable_cash_0 i) (total_unreturned_capital wf i st)

/-- waterfall.py lines 256-257: LP pro-rata share of the return of capital,
by cumulative contributions, zero if nothing was contributed. -/
def lp_roc_share (wf : Waterfall) (i : YearInput) (st : WFState) : ℚ :=
  if 0 < lp_contributions_after wf i st + gp_contributions_after wf i st then
    lp_contributions_after wf i st /
      (lp_contributions_after wf i st + gp_contributions_after wf i st)
  else 0

/-- waterfall.py line 259. -/
def lp_roc_payment (wf : Waterfall) (i : YearInput) (st : WFState) : ℚ :=
  roc_payment wf i st * lp_roc_share wf i st

/-- waterfall.py line 260. -/
def gp_roc_payment (wf : Waterfall) (i : YearInput) (st : WFState) : ℚ :=
  roc_payment wf i st - lp_roc_payment wf i st

/-- waterfall.py line 265: cash left after tier 1. -/
def distributable_cash_1 (wf : Waterfall) (i : YearInput) (st : WFState) : ℚ :=
  distributable_cash_0 i - roc_payment wf i st

/-- waterfall.py line 278: tier 2 preferred-return payment. -/
def pref_payment (wf : Waterfall) (i : YearInput) (st : WFState) : ℚ :=
  min (distributable_cash_1 wf i st) (pref_balance_before_dist wf i st)

/-- waterfall.py line 280: cash left after tier 2. -/
def distributable_cash_2 (wf : Waterfall) (i : YearInput) (st : WFState) : ℚ :=
  distributable_cash_1 wf i st - pref_payment wf i st

/-- waterfall.py line 294: cumulative profit paid to LPs, including this
year's preferred payment. -/
def total_payments_to_lp (wf : Waterfall) (i : YearInput) (st : WFState) : ℚ :=
  (st.cum_pref_payments + pref_payment wf i st) + st.lp_carry_total

/-- waterfall.py line 299: cumulative profit paid to both sides. -/
def total_profit_payments (wf : Waterfall) (i : YearInput) (st : WFState) : ℚ :=
  total_payments_to_lp wf i st + st.gp_carry_total

/-- waterfall.py lines 296-328: tier 3.  The catch-up runs only with cash
left, a positive catch-up split, profits already distributed and an LP
profit share above its target; the payment solves the catch-up equation and
is capped by the remaining cash. -/
def catch_up_payments_available (wf : Waterfall) (i : YearInput) (st : WFState) : ℚ :=
  if 0 < distributable_cash_2 wf i st ∧ 0 < wf.catch_up_pct ∧
      0 < total_profit_payments wf i st ∧
      1 - wf.carried_interest_pct <
        total_payments_to_lp wf i st / total_profit_payments wf i st then
    min ((wf.carried_interest_pct * total_payments_to_lp wf i st -
        (1 - wf.carried_interest_pct) * st.gp_carry_total) /
        (wf.catch_up_pct - wf.carried_interest_pct))
      (distributable_cash_2 wf i st)
  else 0

/-- waterfall.py line 322. -/
def gp_catch_up_payment (wf : Waterfall) (i : YearInput) (st : WFState) : ℚ :=
  wf.catch_up_pct * catch_up_payments_available wf i st

/-- waterfall.py line 323. -/
def lp_catch_up_share (wf : Waterfall) (i : YearInput) (st : WFState) : ℚ :=
  (1 - wf.catch_up_pct) * catch_up_payments_available wf i st

/-- waterfall.py line 328: cash left after tier 3. -/
def distributable_cash_3 (wf : Waterfall) (i : YearInput) (st : WFState) : ℚ :=
  distributable_cash_2 wf i st - catch_up_payments_available wf i st

/-- waterfall.py lines 353-354: tier 4 final split, GP side. -/
def gp_final_split (wf : Waterfall) (i : YearInput) (st : WFState) : ℚ :=
  if 0 < distributable_cash_3 wf i st
  then distributable_cash_3 wf i st * wf.carried_interest_pct else 0

/-- waterfall.py lines 353-355: tier 4 final split, LP side. -/
def lp_final_split (wf : Waterfall) (i : YearInput) (st : WFState) : ℚ :=
  if 0 < distributable_cash_3 wf i st
  then distributable_cash_3 wf i st * (1 - wf.carried_interest_pct) else 0

/-- One fund-year of the waterfall loop (waterfall.py lines 140-435):
contributions, the four tiers, and the year-end state carry
(line 370: next preference basis = unreturned LP capital plus the
outstanding preference balance). -/
def yearStep (wf : Waterfall) (i : YearInput) (st : WFState) : WFState × YearRec :=
  (⟨lp_contributions_after wf i st,
    gp_contributions_after wf i st,
    st.lp_distributions_total + lp_roc_payment wf i st,
    st.gp_distributions_total + gp_roc_payment wf i st,
    (lp_contributions_after wf i st -
      (st.lp_distributions_total + lp_roc_payment wf i st)) +
      (pref_balance_before_dist wf i st - pref_payment wf i st),
    st.cum_pref_payments + pref_payment wf i st,
    pref_balance_before_dist wf i st - pref_payment wf i st,
    st.lp_carry_total + lp_catch_up_share wf i st + lp_final_split wf i st,
    st.gp_carry_total + gp_catch_up_payment wf i st + gp_final_split wf i st⟩,
   ⟨distributable_cash_0 i,
    lp_roc_payment wf i st,
    gp_roc_payment wf i st,
    pref_payment wf i st,
    gp_catch_up_payment wf i st,
    lp_catch_up_share wf i st,
    gp_final_split wf i st,
    lp_final_split wf i st⟩)

/-- The year-by-year loop (waterfall.py line 140), returning the final state
and the audit records in year order. -/
def runYears (wf : Waterfall) : List YearInput → WFState → WFState × List YearRec
  | [], st => (st, [])
  | i :: rest, st =>
    let s1 := yearStep wf i st
    let s2 := runYears wf rest s1.1
    (s2.1, s1.2 :: s2.2)

/-- The aggregates of each fund-year 1..Y read from the ledger
(waterfall.py lines 65-103 and 179-205). -/
def yearInputs (wf : Waterfall) (total_years : ℕ) (ledger : List LedgerEntry) :
    List YearInput :=
  (List.range total_years).map fun (k : ℕ) =>
    ⟨annual_capital_calls total_years ledger ((k : ℤ) + 1),
     annual_gross_proceeds total_years ledger ((k : ℤ) + 1),
     annual_cash_back total_years ledger ((k : ℤ) + 1),
     mid_year_pref_increase wf total_years ledger ((k : ℤ) + 1)⟩

/-- apply_fund_structure's audit records for a ledger (waterfall.py lines
11-447; the empty-ledger early return of line 44 yields no records). -/
def waterfallRecs (wf : Waterfall) (actual_fund_lifespan_months : ℚ)
    (ledger : List LedgerEntry) : List YearRec :=
  if ledger.isEmpty then []
  else (runYears wf
    (yearInputs wf (total_fund_life_years actual_fund_lifespan_months) ledger)
    initWFState).2

/-- Cash paid to the LP in one year across the four tiers
(waterfall.py line 366). -/
def yearRecLPTotal (r : YearRec) : ℚ :=
  r.lp_roc_payment + r.pref_payment + r.lp_catch_up_share + r.lp_final_split

/-- Cash paid to the GP in one year across the tiers
(waterfall.py line 367). -/
def yearRecGPTotal (r : YearRec) : ℚ :=
  r.gp_roc_payment + r.gp_catch_up_payment + r.gp_final_split

/-- Cash paid out to anyone in one year across the four tiers. -/
def yearRecPayout (r : YearRec) : ℚ := yearRecLPTotal r + yearRecGPTotal r

/-- The sum of the LP net flows apply_fund_structure returns for net IRR
(waterfall.py lines 430-444): each year's LP distribution row plus the
LP-share capital-contribution rows taken from the tag -2 ledger entries
(whose amounts are negative). -/
def total_net_lp_flow (wf : Waterfall) (actual_fund_lifespan_months : ℚ)
    (ledger : List LedgerEntry) : ℚ :=
  ((waterfallRecs wf actual_fund_lifespan_months ledger).map yearRecLPTotal).sum +
    lp_commit_pct wf * ((ledger.filter fun e => e.tag == -2).map fun e => e.amount).sum

/-- Tier 1 never pays more than the distributable cash. -/
theorem distributable_cash_1_nonneg (wf : Waterfall) (i : YearInput) (st : WFState) :
    0 ≤ distributable_cash_1 wf i st := by
  unfold distributable_cash_1 roc_payment
  have h := min_le_left (distributable_cash_0 i) (total_unreturned_capital wf i st)
  linarith

/-- Tier 2 never pays more than the cash left after tier 1. -/
theorem distributable_cash_2_nonneg (wf : Waterfall) (i : YearInput) (st : WFState) :
    0 ≤ distributable_cash_2 wf i st := by
  unfold distributable_cash_2 pref_payment
  have h := min_le_left (distributable_cash_1 wf i st) (pref_balance_before_dist wf i st)
  linarith

/-- Tier 3 never pays more than the cash left after tier 2. -/
theorem distributable_cash_3_nonneg (wf : Waterfall) (i : YearInput) (st : WFState) :
    0 ≤ distributable_cash_3 wf i st := by
  unfold distributable_cash_3 catch_up_payments_available
  split_ifs with h
  · have h2 := min_le_right
      ((wf.carried_interest_pct * total_payments_to_lp wf i st -
        (1 - wf.carried_interest_pct) * st.gp_carry_total) /
        (wf.catch_up_pct - wf.carried_interest_pct))
      (distributable_cash_2 wf i st)
    linarith
  · have h2 := distributable_cash_2_nonneg wf i st
    linarith

/-- Each processed year pays out, across the four tiers, exactly its
distributable cash: tiers 1-3 are caps below it and tier 4 distributes the
remainder whenever it is positive. -/
theorem yearStep_payout (wf : Waterfall) (i : YearInput) (st : WFState) :
    yearRecPayout (yearStep wf i st).2 = distributable_cash_0 i := by
  have h3 := distributable_cash_3_nonneg wf i st
  unfold yearRecPayout yearRecLPTotal yearRecGPTotal yearStep
  dsimp only
  by_cases hf : 0 < distributable_cash_3 wf i st
  · unfold lp_final_split gp_final_split
    rw [if_pos hf, if_pos hf]
    unfold distributable_cash_3 distributable_cash_2 distributable_cash_1
      gp_roc_payment gp_catch_up_payment lp_catch_up_share
    ring
  · have h0 : distributable_cash_3 wf i st = 0 := le_antisymm (not_lt.mp hf) h3
    unfold lp_final_split gp_final_split
    rw [if_neg hf, if_neg hf]
    unfold distributable_cash_3 distributable_cash_2 distributable_cash_1 at h0
    unfold gp_roc_payment gp_catch_up_payment lp_catch_up_share
    linarith

/-- Contributions and return-of-capital distributions stay split between LP
and GP in the fixed commitment proportion: there are cumulative totals
S (called) and R (returned), 0 <= R <= S, of which the LP holds the
lp_commit_pct share and the GP the rest. -/
def ContribProportional (wf : Waterfall) (st : WFState) : Prop :=
  ∃ S R : ℚ, 0 ≤ R ∧ R ≤ S ∧
    st.lp_contributions_total = lp_commit_pct wf * S ∧
    st.gp_contributions_total = wf.gp_capital_contribution_pct * S ∧
    st.lp_distributions_total = lp_commit_pct wf * R ∧
    st.gp_distributions_total = wf.gp_capital_contribution_pct * R

/-- The all-zero opening state is proportional. -/
theorem initWFState_proportional (wf : Waterfall) :
    ContribProportional wf initWFState :=
  ⟨0, 0, le_refl 0, le_refl 0, by simp [initWFState], by simp [initWFState],
    by simp [initWFState], by simp [initWFState]⟩

/-- With validated waterfall percentages and nonnegative yearly aggregates,
a processed year pays the GP a nonnegative amount in every tier and keeps
the contribution split proportional. -/
theorem yearStep_gp_nonneg (wf : Waterfall) (i : YearInput) (st : WFState)
    (hgp0 : 0 ≤ wf.gp_capital_contribution_pct)
    (hgp1 : wf.gp_capital_contribution_pct ≤ 1)
    (hci0 : 0 ≤ wf.carried_interest_pct)
    (hcu1 : wf.catch_up_pct ≤ 1)
    (hcuc : wf.catch_up_pct ≤ 0 ∨ wf.carried_interest_pct < wf.catch_up_pct)
    (hcalls : 0 ≤ i.calls) (hproc : 0 ≤ i.proceeds) (hcb : 0 ≤ i.cash_back)
    (hinv : ContribProportional wf st) :
    0 ≤ yearRecGPTotal (yearStep wf i st).2 ∧
      ContribProportional wf (yearStep wf i st).1 := by
  obtain ⟨S, R, hR0, hRS, hlpc, hgpc, hlpd, hgpd⟩ := hinv
  have hlp_pct0 : 0 ≤ lp_commit_pct wf := by unfold lp_commit_pct; linarith
  have hdc0 : 0 ≤ distributable_cash_0 i := by
    unfold distributable_cash_0; linarith
  -- contributions after this year's calls
  have hlpca : lp_contributions_after wf i st = lp_commit_pct wf * (S + i.calls) := by
    unfold lp_contributions_after; rw [hlpc]; ring
  have hgpca : gp_contributions_after wf i st =
      wf.gp_capital_contribution_pct * (S + i.calls) := by
    unfold gp_contributions_after; rw [hgpc]; ring
  have htot : lp_contributions_after wf i st + gp_contributions_after wf i st
      = S + i.calls := by
    rw [hlpca, hgpca]; unfold lp_commit_pct; ring
  have hSc0 : 0 ≤ S + i.calls := by linarith
  have hunret : total_unreturned_capital wf i st = (S + i.calls) - R := by
    unfold total_unreturned_capital
    rw [hlpca, hgpca, hlpd, hgpd]
    unfold lp_commit_pct; ring
  have hunret0 : 0 ≤ total_unreturned_capital wf i st := by
    rw [hunret]; linarith
  have hroc0 : 0 ≤ roc_payment wf i st := by
    unfold roc_payment; exact le_min hdc0 hunret0
  have hrocle : roc_payment wf i st ≤ (S + i.calls) - R := by
    unfold roc_payment; rw [← hunret]; exact min_le_right _ _
  -- the LP pro-rata share reduces to the fixed commitment percentage
  have hlproc : lp_roc_payment wf i st = lp_commit_pct wf * roc_payment wf i st := by
    unfold lp_roc_payment lp_roc_share
    rw [htot, hlpca]
    by_cases hS : 0 < S + i.calls
    · rw [if_pos hS, mul_div_assoc, div_self (ne_of_gt hS)]; ring
    · have hS0 : S + i.calls = 0 := le_antisymm (not_lt.mp hS) hSc0
      rw [if_neg hS]
      have hrle : roc_payment wf i st ≤ 0 := by
        have := hrocle; rw [hS0] at this; linarith
      have hreq : roc_payment wf i st = 0 := le_antisymm hrle hroc0
      rw [hreq]; ring
  have hgproc : gp_roc_payment wf i st =
      wf.gp_capital_contribution_pct * roc_payment wf i st := by
    unfold gp_roc_payment
    rw [hlproc]; unfold lp_commit_pct; ring
  have hgproc0 : 0 ≤ gp_roc_payment wf i st := by
    rw [hgproc]; exact mul_nonneg hgp0 hroc0
  -- tier 3: the available catch-up payment is nonnegative
  have hcua0 : 0 ≤ catch_up_payments_available wf i st := by
    unfold catch_up_payments_available
    split_ifs with h
    · obtain ⟨hdc2, hcup, hprof, hshare⟩ := h
      have hnum : 0 < wf.carried_interest_pct * total_payments_to_lp wf i st -
          (1 - wf.carried_interest_pct) * st.gp_carry_total := by
        have h1 : (1 - wf.carried_interest_pct) * total_profit_payments wf i st <
            total_payments_to_lp wf i st := (lt_div_iff hprof).mp hshare
        unfold total_profit_payments at h1
        nlinarith
      have hden : 0 < wf.catch_up_pct - wf.carried_interest_pct := by
        rcases hcuc with h1 | h1
        · linarith
        · linarith
      exact le_min (le_of_lt (div_pos hnum hden)) (le_of_lt hdc2)
    · exact le_refl 0
  have hgpcu0 : 0 ≤ gp_catch_up_payment wf i st := by
    unfold gp_catch_up_payment
    unfold catch_up_payments_available at hcua0 ⊢
    split_ifs with h
    · rw [if_pos h] at hcua0
      exact mul_nonneg (le_of_lt h.2.1) hcua0
    · simp
  have hgpfs0 : 0 ≤ gp_final_split wf i st := by
    unfold gp_final_split
    split_ifs with h
    · exact mul_nonneg (le_of_lt h) hci0
    · exact le_refl 0
  constructor
  · show 0 ≤ yearRecGPTotal (yearStep wf i st).2
    unfold yearRecGPTotal yearStep
    dsimp only
    linarith
  · refine ⟨S + i.calls, R + roc_payment wf i st, by linarith, by linarith,
      ?_, ?_, ?_, ?_⟩ <;> unfold yearStep <;> dsimp only
    · exact hlpca
    · exact hgpca
    · rw [hlpd, hlproc]; ring
    · rw [hgpd, hgproc]; ring

/-- Year by year, the recorded payout equals the year's distributable cash. -/
theorem runYears_payout_eq (wf : Waterfall) (inputs : List YearInput) :
    ∀ st : WFState,
    List.Forall₂ (fun r i => yearRecPayout r = distributable_cash_0 i)
      (runYears wf inputs st).2 inputs := by
  induction inputs with
  | nil => intro st; exact List.Forall₂.nil
  | cons i rest ih =>
    intro st
    show List.Forall₂ _
      ((yearStep wf i st).2 :: (runYears wf rest (yearStep wf i st).1).2) (i :: rest)
    exact List.Forall₂.cons (yearStep_payout wf i st) (ih _)

/-- With validated percentages, nonnegative aggregates and a proportional
opening state, every recorded year pays the GP a nonnegative total. -/
theorem runYears_gp_nonneg (wf : Waterfall)
    (hgp0 : 0 ≤ wf.gp_capital_contribution_pct)
    (hgp1 : wf.gp_capital_contribution_pct ≤ 1)
    (hci0 : 0 ≤ wf.carried_interest_pct)
    (hcu1 : wf.catch_up_pct ≤ 1)
    (hcuc : wf.catch_up_pct ≤ 0 ∨ wf.carried_interest_pct < wf.catch_up_pct)
    (inputs : List YearInput) :
    ∀ st : WFState,
    (∀ i ∈ inputs, 0 ≤ i.calls ∧ 0 ≤ i.proceeds ∧ 0 ≤ i.cash_back) →
    ContribProportional wf st →
    ∀ r ∈ (runYears wf inputs st).2, 0 ≤ yearRecGPTotal r := by
  induction inputs with
  | nil =>
    intro st _ _ r hr
    exact absurd hr (List.not_mem_nil r)
  | cons i rest ih =>
    intro st hin hinv r hr
    have hi := hin i (List.mem_cons_self i rest)
    have hstep := yearStep_gp_nonneg wf i st hgp0 hgp1 hci0 hcu1 hcuc
      hi.1 hi.2.1 hi.2.2 hinv
    have hr2 : r ∈ (yearStep wf i st).2 ::
        (runYears wf rest (yearStep wf i st).1).2 := hr
    rcases List.mem_cons.mp hr2 with h | h
    · rw [h]; exact hstep.1
    · exact ih _ (fun j hj => hin j (List.mem_cons_of_mem _ hj)) hstep.2 r h

/-- Summing the pointwise payout identity over the years. -/
theorem payout_sum_eq {recs : List YearRec} {inputs : List YearInput}
    (h : List.Forall₂ (fun r i => yearRecPayout r = distributable_cash_0 i)
      recs inputs) :
    (recs.map yearRecPayout).sum = (inputs.map distributable_cash_0).sum := by
  induction h with
  | nil => rfl
  | cons h1 _ ih => simp only [List.map_cons, List.sum_cons, h1, ih]

/-- The LP side of each year is at most the full payout when the GP side is
nonnegative. -/
theorem lp_sum_le_payout_sum (recs : List YearRec)
    (h : ∀ r ∈ recs, 0 ≤ yearRecGPTotal r) :
    (recs.map yearRecLPTotal).sum ≤ (recs.map yearRecPayout).sum := by
  induction recs with
  | nil => exact le_refl 0
  | cons r rest ih =>
    have h1 := h r (List.mem_cons_self r rest)
    have h2 := ih (fun x hx => h x (List.mem_cons_of_mem _ hx))
    have h3 : yearRecPayout r = yearRecLPTotal r + yearRecGPTotal r := rfl
    simp only [List.map_cons, List.sum_cons]
    linarith [h3]

/-- The per-year aggregates read from any ledger are nonnegative: calls and
swept cash are sums of absolute values, proceeds a sum of positive
amounts. -/
theorem yearInputs_nonneg (wf : Waterfall) (total_years : ℕ)
    (ledger : List LedgerEntry) :
    ∀ i ∈ yearInputs wf total_years ledger,
      0 ≤ i.calls ∧ 0 ≤ i.proceeds ∧ 0 ≤ i.cash_back := by
  intro i hi
  unfold yearInputs at hi
  rcases List.mem_map.mp hi with ⟨k, _, hik⟩
  rw [← hik]
  refine ⟨?_, ?_, ?_⟩
  · unfold annual_capital_calls
    apply List.sum_nonneg
    intro x hx
    rcases List.mem_map.mp hx with ⟨e, _, hex⟩
    rw [← hex]; exact abs_nonneg _
  · unfold annual_gross_proceeds
    apply List.sum_nonneg
    intro x hx
    rcases List.mem_map.mp hx with ⟨e, he, hex⟩
    rw [← hex]
    obtain ⟨_, hcond⟩ := List.mem_filter.mp he
    simp only [Bool.and_eq_true, decide_eq_true_eq] at hcond
    exact le_of_lt hcond.1.2
  · unfold annual_cash_back
    apply List.sum_nonneg
    intro x hx
    rcases List.mem_map.mp hx with ⟨e, _, hex⟩
    rw [← hex]; exact abs_nonneg _

/-- Claim C2: for every nonempty tagged gross ledger processed under
validated waterfall terms (GP commitment share and carried interest in
[0,1], catch-up split at most 1 and, when active, above the carried
interest), each fund-year's payout across the four tiers never exceeds that
year's distributable cash (positive company proceeds plus tag 9999 swept
cash), and over the whole run the LP distributions never exceed the total
distributable cash. -/
theorem waterfall_payout_monotone (wf : Waterfall)
    (actual_fund_lifespan_months : ℚ) (ledger : List LedgerEntry)
    (hgp0 : 0 ≤ wf.gp_capital_contribution_pct)
    (hgp1 : wf.gp_capital_contribution_pct ≤ 1)
    (hci0 : 0 ≤ wf.carried_interest_pct)
    (hcu1 : wf.catch_up_pct ≤ 1)
    (hcuc : wf.catch_up_pct ≤ 0 ∨ wf.carried_interest_pct < wf.catch_up_pct)
    (hne : ledger ≠ []) :
    List.Forall₂ (fun r i => yearRecPayout r ≤ distributable_cash_0 i)
      (waterfallRecs wf actual_fund_lifespan_months ledger)
      (yearInputs wf (total_fund_life_years actual_fund_lifespan_months) ledger) ∧
    ((waterfallRecs wf actual_fund_lifespan_months ledger).map yearRecLPTotal).sum ≤
      ((yearInputs wf (total_fund_life_years actual_fund_lifespan_months) ledger).map
        distributable_cash_0).sum := by
  have hrecs : waterfallRecs wf actual_fund_lifespan_months ledger =
      (runYears wf
        (yearInputs wf (total_fund_life_years actual_fund_lifespan_months) ledger)
        initWFState).2 := by
    unfold waterfallRecs
    rw [if_neg]
    intro h
    exact hne (List.isEmpty_iff.mp h)
  constructor
  · rw [hrecs]
    exact (runYears_payout_eq wf _ initWFState).imp (fun _ _ h => le_of_eq h)
  · rw [hrecs]
    have h1 := payout_sum_eq (runYears_payout_eq wf
      (yearInputs wf (total_fund_life_years actual_fund_lifespan_months) ledger)
      initWFState)
    have h2 := lp_sum_le_payout_sum
      (runYears wf
        (yearInputs wf (total_fund_life_years actual_fund_lifespan_months) ledger)
        initWFState).2
      (runYears_gp_nonneg wf hgp0 hgp1 hci0 hcu1 hcuc
        (yearInputs wf (total_fund_life_years actual_fund_lifespan_months) ledger)
        initWFState
        (yearInputs_nonneg wf (total_fund_life_years actual_fund_lifespan_months) ledger)
        (initWFState_proportional wf))
    linarith

/-- Witness for the C2 theorem on a concrete two-year run: standard terms
(1 pct GP commitment, 20 pct carry, 100 pct catch-up, 8 pct preferred), a
usual ledger with a call, an investment, an exit and a final sweep. -/
theorem waterfall_payout_monotone_witness :
    List.Forall₂ (fun r i => yearRecPayout r ≤ distributable_cash_0 i)
      (waterfallRecs ⟨1, 1/5, 2/25, 1/100⟩ 24
        [⟨-100, 0, -2⟩, ⟨-80, 1, 1⟩, ⟨240, 14, 1⟩, ⟨20, 20, 9999⟩])
      (yearInputs ⟨1, 1/5, 2/25, 1/100⟩ (total_fund_life_years 24)
        [⟨-100, 0, -2⟩, ⟨-80, 1, 1⟩, ⟨240, 14, 1⟩, ⟨20, 20, 9999⟩]) ∧
    ((waterfallRecs ⟨1, 1/5, 2/25, 1/100⟩ 24
        [⟨-100, 0, -2⟩, ⟨-80, 1, 1⟩, ⟨240, 14, 1⟩, ⟨20, 20, 9999⟩]).map
      yearRecLPTotal).sum ≤
      ((yearInputs ⟨1, 1/5, 2/25, 1/100⟩ (total_fund_life_years 24)
        [⟨-100, 0, -2⟩, ⟨-80, 1, 1⟩, ⟨240, 14, 1⟩, ⟨20, 20, 9999⟩]).map
      distributable_cash_0).sum :=
  waterfall_payout_monotone ⟨1, 1/5, 2/25, 1/100⟩ 24
    [⟨-100, 0, -2⟩, ⟨-80, 1, 1⟩, ⟨240, 14, 1⟩, ⟨20, 20, 9999⟩]
    (by norm_num) (by norm_num) (by norm_num) (by norm_num)
    (Or.inr (by norm_num)) (by simp)

/-- Claim C4: at the end of every processed year the preference basis
carried into the next year equals unreturned LP capital (cumulative LP
contributions minus cumulative LP return-of-capital distributions) plus the
unpaid preferred-return balance, and the opening preferred-return balance
the next year recovers from that basis is exactly the stored unpaid
balance. -/
theorem preference_basis_carry_spec (wf : Waterfall) (i : YearInput)
    (st : WFState) :
    (yearStep wf i st).1.lp_preference_basis =
      ((yearStep wf i st).1.lp_contributions_total -
        (yearStep wf i st).1.lp_distributions_total) +
      (yearStep wf i st).1.lp_pref_balance ∧
    opening_pref_balance (yearStep wf i st).1 =
      (yearStep wf i st).1.lp_pref_balance := by
  constructor
  · rfl
  · unfold opening_pref_balance yearStep
    dsimp only
    ring

/-- Total capital called across the ledger (absolute tag -2 amounts). -/
def total_calls_abs (ledger : List LedgerEntry) : ℚ :=
  ((ledger.filter fun e => e.tag == -2).map fun e => |e.amount|).sum

/-- Signed sum of all company-tagged flows (tags strictly between 0 and
9999); with zero gross proceeds this is minus the capital invested. -/
def company_flow_sum (ledger : List LedgerEntry) : ℚ :=
  ((ledger.filter fun e => decide (0 < e.tag) && decide (e.tag < 9999)).map
    fun e => e.amount).sum

/-- Signed sum of the management-fee entries (tag -1); fees paid appear as
negative amounts, so this is minus the fees paid. -/
def fee_flow_sum (ledger : List LedgerEntry) : ℚ :=
  ((ledger.filter fun e => e.tag == -1).map fun e => e.amount).sum

/-- A fund with a positive lifespan spans at least one waterfall year. -/
theorem total_fund_life_years_pos (m : ℚ) (h : 0 < m) :
    1 ≤ total_fund_life_years m := by
  unfold total_fund_life_years
  have h1 : (0:ℤ) < Int.ceil (m / 12) := Int.ceil_pos.mpr (by positivity)
  omega

/-- Year assignments are at least 1 whenever the fund has a year at all. -/
theorem entryYear_ge_one (total_years : ℕ) (h : 1 ≤ total_years) (t : ℚ) :
    1 ≤ entryYear total_years t := by
  unfold entryYear
  have h2 : (1:ℤ) ≤ (total_years : ℤ) := by exact_mod_cast h
  exact le_min (le_max_right _ _) h2

/-- Year assignments never exceed the fund life. -/
theorem entryYear_le_total (total_years : ℕ) (t : ℚ) :
    entryYear total_years t ≤ (total_years : ℤ) := min_le_right _ _

/-- Year assignment is monotone in the transaction time. -/
theorem entryYear_mono (total_years : ℕ) {t1 t2 : ℚ} (h : t1 ≤ t2) :
    entryYear total_years t1 ≤ entryYear total_years t2 := by
  unfold entryYear
  have h1 : Int.floor ((t1 - 1/1000000000) / 12) ≤
      Int.floor ((t2 - 1/1000000000) / 12) := by
    apply Int.floor_le_floor
    have h12 : (0:ℚ) < 12 := by norm_num
    exact (div_le_div_iff_of_pos_right h12).mpr (by linarith)
  exact min_le_min (max_le_max (by omega) (le_refl 1)) (le_refl _)

/-- A list of nonpositive rationals has nonpositive sum. -/
theorem list_sum_nonpos (l : List ℚ) (h : ∀ x ∈ l, x ≤ 0) : l.sum ≤ 0 := by
  induction l with
  | nil => exact le_refl 0
  | cons a rest ih =>
    have h1 := h a (List.mem_cons_self a rest)
    have h2 := ih (fun x hx => h x (List.mem_cons_of_mem _ hx))
    simp only [List.sum_cons]
    linarith

/-- Sums of pointwise sums split. -/
theorem list_sum_map_add {α : Type} (l : List α) (f g : α → ℚ) :
    (l.map fun x => f x + g x).sum = (l.map f).sum + (l.map g).sum := by
  induction l with
  | nil => simp
  | cons a rest ih => simp only [List.map_cons, List.sum_cons, ih]; ring

/-- Indicator sums over the year range collapse to a range test. -/
theorem range_indicator_sum (c : ℚ) (y : ℤ) (hy : 1 ≤ y) (n : ℕ) :
    ((List.range n).map fun (k : ℕ) => if y = (k:ℤ) + 1 then c else 0).sum
      = if y ≤ (n:ℤ) then c else 0 := by
  induction n with
  | zero =>
    simp only [List.range_zero, List.map_nil, List.sum_nil, Nat.cast_zero]
    rw [if_neg (by omega)]
  | succ n ih =>
    rw [List.range_succ, List.map_append, List.sum_append, ih]
    simp only [List.map_cons, List.map_nil, List.sum_cons, List.sum_nil, add_zero]
    by_cases h1 : y ≤ (n:ℤ)
    · rw [if_pos h1, if_neg (by omega), if_pos (by push_cast; omega)]
      ring
    · by_cases h2 : y = (n:ℤ) + 1
      · rw [if_neg h1, if_pos h2, if_pos (by push_cast; omega)]
        ring
      · rw [if_neg h1, if_neg h2, if_neg (by push_cast; omega)]
        ring

/-- Filtering a cons splits its mapped sum. -/
theorem filter_cons_map_sum (q : LedgerEntry → Bool) (f : LedgerEntry → ℚ)
    (e : LedgerEntry) (l : List LedgerEntry) :
    (((e :: l).filter q).map f).sum =
      (if q e then f e else 0) + ((l.filter q).map f).sum := by
  rw [List.filter_cons]
  by_cases hq : q e
  · rw [if_pos hq, if_pos hq, List.map_cons, List.sum_cons]
  · rw [if_neg hq, if_neg hq, zero_add]

/-- Regrouping: summing a per-year aggregate over years 1..n equals summing
over the ledger entries assigned to a year at most n. -/
theorem sum_years_eq (p : LedgerEntry → Bool) (f : LedgerEntry → ℚ)
    (total_years : ℕ) (hY : 1 ≤ total_years) (l : List LedgerEntry) (n : ℕ) :
    ((List.range n).map fun (k : ℕ) =>
      ((l.filter fun e => p e &&
        (entryYear total_years e.time_months == (k:ℤ) + 1)).map f).sum).sum
    = ((l.filter fun e => p e &&
        decide (entryYear total_years e.time_months ≤ (n:ℤ))).map f).sum := by
  induction l with
  | nil => simp
  | cons e l ih =>
    have hstep : ∀ k : ℕ,
        (((e :: l).filter fun e' => p e' &&
          (entryYear total_years e'.time_months == (k:ℤ) + 1)).map f).sum =
        (if p e && (entryYear total_years e.time_months == (k:ℤ) + 1)
          then f e else 0) +
        ((l.filter fun e' => p e' &&
          (entryYear total_years e'.time_months == (k:ℤ) + 1)).map f).sum :=
      fun k => filter_cons_map_sum _ f e l
    calc ((List.range n).map fun (k : ℕ) =>
          (((e :: l).filter fun e' => p e' &&
            (entryYear total_years e'.time_months == (k:ℤ) + 1)).map f).sum).sum
        = ((List.range n).map fun (k : ℕ) =>
            (if p e && (entryYear total_years e.time_months == (k:ℤ) + 1)
              then f e else 0) +
            ((l.filter fun e' => p e' &&
              (entryYear total_years e'.time_months == (k:ℤ) + 1)).map f).sum).sum := by
          apply congrArg
          exact List.map_congr_left (fun k _ => hstep k)
      _ = ((List.range n).map fun (k : ℕ) =>
            if p e && (entryYear total_years e.time_months == (k:ℤ) + 1)
              then f e else 0).sum +
          ((List.range n).map fun (k : ℕ) =>
            ((l.filter fun e' => p e' &&
              (entryYear total_years e'.time_months == (k:ℤ) + 1)).map f).sum).sum :=
          list_sum_map_add _ _ _
      _ = (if p e && decide (entryYear total_years e.time_months ≤ (n:ℤ))
            then f e else 0) +
          ((l.filter fun e' => p e' &&
            decide (entryYear total_years e'.time_months ≤ (n:ℤ))).map f).sum := by
          rw [ih]
          apply congrArg (fun z => z + _)
          by_cases hp : p e
          · simp only [hp, Bool.true_and]
            have h1 : ∀ k : ℕ,
                (if (entryYear total_years e.time_months == (k:ℤ) + 1)
                  then f e else 0) =
                (if entryYear total_years e.time_months = (k:ℤ) + 1
                  then f e else 0) := by
              intro k
              by_cases h : entryYear total_years e.time_months = (k:ℤ) + 1
              · rw [if_pos h, if_pos (by exact beq_iff_eq.mpr h)]
              · rw [if_neg h, if_neg (by simpa using h)]
            rw [List.map_congr_left (fun k _ => h1 k),
              range_indicator_sum (f e) _ (entryYear_ge_one total_years hY _) n]
            by_cases h2 : entryYear total_years e.time_months ≤ (n:ℤ)
            · rw [if_pos h2, if_pos (by simpa using h2)]
            · rw [if_neg h2, if_neg (by simpa using h2)]
          · simp only [Bool.not_eq_true] at hp
            simp only [hp, Bool.false_and]
            simp
      _ = (((e :: l).filter fun e' => p e' &&
            decide (entryYear total_years e'.time_months ≤ (n:ℤ))).map f).sum := by
          rw [filter_cons_map_sum]

/-- Negating each summand negates the sum. -/
theorem list_sum_map_neg {α : Type} (l : List α) (g : α → ℚ) :
    (l.map fun x => -g x).sum = -((l.map g).sum) := by
  induction l with
  | nil => simp
  | cons a rest ih => simp only [List.map_cons, List.sum_cons, ih]; ring

/-- A sum of nonpositive signed amounts is minus the sum of their absolute
values. -/
theorem sum_amounts_eq_neg_abs (l : List LedgerEntry)
    (h : ∀ e ∈ l, e.amount ≤ 0) :
    (l.map fun e => e.amount).sum = -((l.map fun e => |e.amount|).sum) := by
  induction l with
  | nil => simp
  | cons e rest ih =>
    have h1 := h e (List.mem_cons_self e rest)
    have h2 := ih (fun x hx => h x (List.mem_cons_of_mem _ hx))
    simp only [List.map_cons, List.sum_cons, h2]
    rw [abs_of_nonpos h1]
    ring

/-- With no positive company-tagged amounts, every year's gross proceeds
aggregate vanishes. -/
theorem annual_gross_proceeds_zero (total_years : ℕ) (ledger : List LedgerEntry)
    (y : ℤ) (h : ∀ e ∈ ledger, 0 < e.tag → e.tag < 9999 → e.amount ≤ 0) :
    annual_gross_proceeds total_years ledger y = 0 := by
  unfold annual_gross_proceeds
  rw [List.filter_eq_nil.mpr]
  · rfl
  · intro e he hP
    simp only [Bool.and_eq_true, decide_eq_true_eq] at hP
    exact absurd hP.1.2 (not_lt.mpr (h e he hP.1.1.1 hP.1.1.2))

/-- When the ledger holds exactly one swept-cash entry, each year's
cash-back aggregate is that entry's amount in its own year and zero
elsewhere. -/
theorem annual_cash_back_single (total_years : ℕ) (ledger : List LedgerEntry)
    (s : LedgerEntry) (hs : ledger.filter (fun e => e.tag == 9999) = [s]) (y : ℤ) :
    annual_cash_back total_years ledger y =
      if entryYear total_years s.time_months = y then |s.amount| else 0 := by
  unfold annual_cash_back
  have h1 : (ledger.filter fun e =>
          e.tag == 9999 && entryYear total_years e.time_months == y)
      = (ledger.filter fun e => e.tag == 9999).filter
          (fun e => entryYear total_years e.time_months == y) := by
    rw [List.filter_filter]
    apply List.filter_congr
    intro e _
    rw [Bool.and_comm]
  rw [h1, hs, List.filter_singleton]
  by_cases h : entryYear total_years s.time_months = y
  · have hb : (entryYear total_years s.time_months == y) = true := beq_iff_eq.mpr h
    rw [hb, if_pos h]
    simp
  · have hb : (entryYear total_years s.time_months == y) = false := by
      simpa using h
    rw [hb, if_neg h]
    simp

/-- Calls recorded with nonpositive amounts and a time inside their assigned
year only increase the mid-year preferred accrual. -/
theorem mid_year_pref_increase_nonneg (wf : Waterfall) (total_years : ℕ)
    (ledger : List LedgerEntry) (y : ℤ)
    (hgp1 : wf.gp_capital_contribution_pct ≤ 1)
    (hpr : 0 ≤ wf.preferred_return_pct)
    (hc : ∀ e ∈ ledger, e.tag = -2 → e.amount ≤ 0 ∧
      e.time_months ≤ 12 * entryYear total_years e.time_months) :
    0 ≤ mid_year_pref_increase wf total_years ledger y := by
  simp only [mid_year_pref_increase]
  split_ifs with hemp
  · exact le_refl 0
  · have hlp : 0 ≤ 1 - wf.gp_capital_contribution_pct := by linarith
    have hkey : ((ledger.filter fun e =>
          e.tag == -2 && entryYear total_years e.time_months == y).map fun e =>
        e.amount * (1 + wf.preferred_return_pct / 12 *
          (((12 * y : ℤ) : ℚ) - e.time_months))).sum ≤
        -(((ledger.filter fun e =>
          e.tag == -2 && entryYear total_years e.time_months == y).map fun e =>
          |e.amount|).sum) := by
      rw [← list_sum_map_neg]
      apply List.sum_le_sum
      intro e he
      obtain ⟨hmem, hcond⟩ := List.mem_filter.mp he
      simp only [Bool.and_eq_true, beq_iff_eq] at hcond
      obtain ⟨ha, ht⟩ := hc e hmem hcond.1
      have hy12 : e.time_months ≤ ((12 * y : ℤ) : ℚ) := by
        rw [← hcond.2]
        push_cast at ht ⊢
        linarith
      have hmult : 1 ≤ 1 + wf.preferred_return_pct / 12 *
          (((12 * y : ℤ) : ℚ) - e.time_months) := by
        have := mul_nonneg (by positivity : 0 ≤ wf.preferred_return_pct / 12)
          (by linarith : 0 ≤ ((12 * y : ℤ) : ℚ) - e.time_months)
        linarith
      rw [abs_of_nonpos ha]
      nlinarith
    have hacc : annual_capital_calls total_years ledger y =
        ((ledger.filter fun e =>
          e.tag == -2 && entryYear total_years e.time_months == y).map fun e =>
          |e.amount|).sum := rfl
    rw [hacc]
    nlinarith

/-- The no-profit trajectory of the waterfall state: contributions and
return-of-capital distributions proportional between LP and GP at cumulative
totals S and D, a nonnegative opening preference balance, and no preferred,
catch-up or carry payments so far. -/
def NoProfitInv (wf : Waterfall) (S D : ℚ) (st : WFState) : Prop :=
  st.lp_contributions_total = lp_commit_pct wf * S ∧
  st.gp_contributions_total = wf.gp_capital_contribution_pct * S ∧
  st.lp_distributions_total = lp_commit_pct wf * D ∧
  st.gp_distributions_total = wf.gp_capital_contribution_pct * D ∧
  0 ≤ D ∧ D ≤ S ∧ 0 ≤ opening_pref_balance st ∧
  st.cum_pref_payments = 0 ∧ st.lp_carry_total = 0 ∧ st.gp_carry_total = 0

/-- The opening state starts the no-profit trajectory. -/
theorem initWFState_no_profit (wf : Waterfall) : NoProfitInv wf 0 0 initWFState := by
  refine ⟨?_, ?_, ?_, ?_, le_refl 0, le_refl 0, ?_, rfl, rfl, rfl⟩ <;>
    simp [initWFState, opening_pref_balance]

/-- A year with zero gross proceeds distributes exactly the LP commitment
share of that year's swept cash as return of capital, pays no preferred
return, no catch-up and no final split, and stays on the no-profit
trajectory - provided the cash swept so far never outruns the capital called
so far. -/
theorem yearStep_no_profit (wf : Waterfall) (i : YearInput) (st : WFState)
    (S D : ℚ)
    (hgp0 : 0 ≤ wf.gp_capital_contribution_pct)
    (hgp1 : wf.gp_capital_contribution_pct ≤ 1)
    (hpr : 0 ≤ wf.preferred_return_pct)
    (hinv : NoProfitInv wf S D st)
    (hz : i.proceeds = 0) (hc : 0 ≤ i.calls) (hcb : 0 ≤ i.cash_back)
    (hmi : 0 ≤ i.mid_year_increase)
    (hdom : D + i.cash_back ≤ S + i.calls) :
    NoProfitInv wf (S + i.calls) (D + i.cash_back) (yearStep wf i st).1 ∧
    yearRecLPTotal (yearStep wf i st).2 = lp_commit_pct wf * i.cash_back ∧
    (yearStep wf i st).2.pref_payment = 0 ∧
    (yearStep wf i st).2.gp_catch_up_payment = 0 ∧
    (yearStep wf i st).2.lp_catch_up_share = 0 ∧
    (yearStep wf i st).2.gp_final_split = 0 ∧
    (yearStep wf i st).2.lp_final_split = 0 := by
  obtain ⟨hlpc, hgpc, hlpd, hgpd, hD0, hDS, hob, hcp, hlc, hgc⟩ := hinv
  have hlp_pct0 : 0 ≤ lp_commit_pct wf := by unfold lp_commit_pct; linarith
  have hdc0 : distributable_cash_0 i = i.cash_back := by
    unfold distributable_cash_0; rw [hz]; ring
  have hlpca : lp_contributions_after wf i st = lp_commit_pct wf * (S + i.calls) := by
    unfold lp_contributions_after; rw [hlpc]; ring
  have hgpca : gp_contributions_after wf i st =
      wf.gp_capital_contribution_pct * (S + i.calls) := by
    unfold gp_contributions_after; rw [hgpc]; ring
  have htot : lp_contributions_after wf i st + gp_contributions_after wf i st
      = S + i.calls := by
    rw [hlpca, hgpca]; unfold lp_commit_pct; ring
  have hunret : total_unreturned_capital wf i st = (S + i.calls) - D := by
    unfold total_unreturned_capital
    rw [hlpca, hgpca, hlpd, hgpd]
    unfold lp_commit_pct; ring
  have hroc : roc_payment wf i st = i.cash_back := by
    unfold roc_payment
    rw [hdc0, hunret]
    exact min_eq_left (by linarith)
  have hlproc : lp_roc_payment wf i st = lp_commit_pct wf * i.cash_back := by
    unfold lp_roc_payment lp_roc_share
    rw [htot, hlpca, hroc]
    by_cases hS : 0 < S + i.calls
    · rw [if_pos hS, mul_div_assoc, div_self (ne_of_gt hS)]; ring
    · have hS0 : S + i.calls = 0 := le_antisymm (not_lt.mp hS) (by linarith)
      have hcb0 : i.cash_back = 0 := by
        have : D + i.cash_back ≤ 0 := by rw [← hS0]; exact hdom
        linarith
      rw [if_neg hS, hcb0]; ring
  have hgproc : gp_roc_payment wf i st =
      wf.gp_capital_contribution_pct * i.cash_back := by
    unfold gp_roc_payment
    rw [hlproc, hroc]; unfold lp_commit_pct; ring
  have hdc1 : distributable_cash_1 wf i st = 0 := by
    unfold distributable_cash_1
    rw [hdc0, hroc]; ring
  have hpb2 : 0 ≤ pref_balance_before_dist wf i st := by
    unfold pref_balance_before_dist accrued_pref_balance
    have hif : 0 ≤ (if 0 < st.lp_preference_basis
        then st.lp_preference_basis * wf.preferred_return_pct else 0) := by
      split_ifs with h
      · exact mul_nonneg (le_of_lt h) hpr
      · exact le_refl 0
    linarith
  have hpref : pref_payment wf i st = 0 := by
    unfold pref_payment
    rw [hdc1]
    exact min_eq_left hpb2
  have hdc2 : distributable_cash_2 wf i st = 0 := by
    unfold distributable_cash_2
    rw [hdc1, hpref]; ring
  have hcua : catch_up_payments_available wf i st = 0 := by
    unfold catch_up_payments_available
    rw [if_neg]
    intro h
    rw [hdc2] at h
    exact absurd h.1 (lt_irrefl 0)
  have hgpcu : gp_catch_up_payment wf i st = 0 := by
    unfold gp_catch_up_payment; rw [hcua]; ring
  have hlpcu : lp_catch_up_share wf i st = 0 := by
    unfold lp_catch_up_share; rw [hcua]; ring
  have hdc3 : distributable_cash_3 wf i st = 0 := by
    unfold distributable_cash_3
    rw [hdc2, hcua]; ring
  have hgpfs : gp_final_split wf i st = 0 := by
    unfold gp_final_split
    rw [hdc3, if_neg (lt_irrefl 0)]
  have hlpfs : lp_final_split wf i st = 0 := by
    unfold lp_final_split
    rw [hdc3, if_neg (lt_irrefl 0)]
  refine ⟨⟨?_, ?_, ?_, ?_, by linarith, hdom, ?_, ?_, ?_, ?_⟩, ?_, ?_, ?_, ?_, ?_, ?_⟩
  · show lp_contributions_after wf i st = _
    exact hlpca
  · show gp_contributions_after wf i st = _
    exact hgpca
  · show st.lp_distributions_total + lp_roc_payment wf i st = _
    rw [hlpd, hlproc]; ring
  · show st.gp_distributions_total + gp_roc_payment wf i st = _
    rw [hgpd, hgproc]; ring
  · show 0 ≤ opening_pref_balance (yearStep wf i st).1
    have heq : opening_pref_balance (yearStep wf i st).1 =
        pref_balance_before_dist wf i st - pref_payment wf i st := by
      unfold opening_pref_balance yearStep
      dsimp only
      ring
    rw [heq, hpref]
    linarith
  · show st.cum_pref_payments + pref_payment wf i st = 0
    rw [hcp, hpref]; ring
  · show st.lp_carry_total + lp_catch_up_share wf i st + lp_final_split wf i st = 0
    rw [hlc, hlpcu, hlpfs]; ring
  · show st.gp_carry_total + gp_catch_up_payment wf i st + gp_final_split wf i st = 0
    rw [hgc, hgpcu, hgpfs]; ring
  · show lp_roc_payment wf i st + pref_payment wf i st +
      lp_catch_up_share wf i st + lp_final_split wf i st = _
    rw [hlproc, hpref, hlpcu, hlpfs]; ring
  · exact hpref
  · exact hgpcu
  · exact hlpcu
  · exact hgpfs
  · exact hlpfs

/-- Running the waterfall over years with zero gross proceeds: the LP
distributions total the LP commitment share of the swept cash, and no year
pays preferred return, catch-up or final split - provided cash swept through
any first stretch of years never exceeds capital called through it. -/
theorem runYears_no_profit (wf : Waterfall)
    (hgp0 : 0 ≤ wf.gp_capital_contribution_pct)
    (hgp1 : wf.gp_capital_contribution_pct ≤ 1)
    (hpr : 0 ≤ wf.preferred_return_pct)
    (inputs : List YearInput) :
    ∀ (S D : ℚ) (st : WFState), NoProfitInv wf S D st →
    (∀ i ∈ inputs, i.proceeds = 0 ∧ 0 ≤ i.calls ∧ 0 ≤ i.cash_back ∧
      0 ≤ i.mid_year_increase) →
    (∀ n : ℕ, D + ((inputs.take n).map YearInput.cash_back).sum ≤
      S + ((inputs.take n).map YearInput.calls).sum) →
    (((runYears wf inputs st).2.map yearRecLPTotal).sum =
      lp_commit_pct wf * (inputs.map YearInput.cash_back).sum) ∧
    (∀ r ∈ (runYears wf inputs st).2, r.pref_payment = 0 ∧
      r.gp_catch_up_payment = 0 ∧ r.lp_catch_up_share = 0 ∧
      r.gp_final_split = 0 ∧ r.lp_final_split = 0) := by
  induction inputs with
  | nil =>
    intro S D st _ _ _
    refine ⟨?_, fun r hr => absurd hr (List.not_mem_nil r)⟩
    rw [show runYears wf [] st = (st, []) from rfl]
    simp
  | cons i rest ih =>
    intro S D st hinv hin hdom
    have hi := hin i (List.mem_cons_self i rest)
    have hdom1 := hdom 1
    simp only [List.take_succ_cons, List.take_zero, List.map_cons, List.map_nil,
      List.sum_cons, List.sum_nil, add_zero] at hdom1
    have hstep := yearStep_no_profit wf i st S D hgp0 hgp1 hpr hinv
      hi.1 hi.2.1 hi.2.2.1 hi.2.2.2 hdom1
    have hrest := ih (S + i.calls) (D + i.cash_back) (yearStep wf i st).1 hstep.1
      (fun j hj => hin j (List.mem_cons_of_mem _ hj))
      (by
        intro n
        have h2 := hdom (n + 1)
        simp only [List.take_succ_cons, List.map_cons, List.sum_cons] at h2
        linarith)
    constructor
    · show (((yearStep wf i st).2 ::
          (runYears wf rest (yearStep wf i st).1).2).map yearRecLPTotal).sum = _
      simp only [List.map_cons, List.sum_cons]
      rw [hrest.1, hstep.2.1]
      ring
    · intro r hr
      have hr2 : r ∈ (yearStep wf i st).2 ::
          (runYears wf rest (yearStep wf i st).1).2 := hr
      rcases List.mem_cons.mp hr2 with h | h
      · rw [h]
        exact ⟨hstep.2.2.1, hstep.2.2.2.1, hstep.2.2.2.2.1,
          hstep.2.2.2.2.2.1, hstep.2.2.2.2.2.2⟩
      · exact hrest.2 r h

/-- General zero-gross-proceeds law of apply_fund_structure: for a ledger
with no positive company proceeds, nonpositive fee and call amounts, calls
timed inside their assigned year, and a single swept-cash entry equal to
calls minus investments minus fees arriving no earlier than any call, the
total net LP flow is the LP commitment share of (investments plus fees),
negated, and no year pays preferred return, catch-up or carry. -/
theorem zero_profit_net_flow (wf : Waterfall) (lifespan : ℚ)
    (ledger : List LedgerEntry) (s : LedgerEntry)
    (hgp0 : 0 ≤ wf.gp_capital_contribution_pct)
    (hgp1 : wf.gp_capital_contribution_pct ≤ 1)
    (hpr : 0 ≤ wf.preferred_return_pct)
    (hlife : 0 < lifespan)
    (hproc : ∀ e ∈ ledger, 0 < e.tag → e.tag < 9999 → e.amount ≤ 0)
    (hfees : ∀ e ∈ ledger, e.tag = -1 → e.amount ≤ 0)
    (hcalls : ∀ e ∈ ledger, e.tag = -2 → e.amount ≤ 0 ∧
      e.time_months ≤ 12 * entryYear (total_fund_life_years lifespan) e.time_months ∧
      e.time_months ≤ s.time_months)
    (hsweep : ledger.filter (fun e => e.tag == 9999) = [s])
    (hsamt : s.amount = total_calls_abs ledger + company_flow_sum ledger +
      fee_flow_sum ledger)
    (hs0 : 0 ≤ s.amount) :
    total_net_lp_flow wf lifespan ledger =
      lp_commit_pct wf * (company_flow_sum ledger + fee_flow_sum ledger) ∧
    (∀ r ∈ waterfallRecs wf lifespan ledger, r.pref_payment = 0 ∧
      r.gp_catch_up_payment = 0 ∧ r.lp_catch_up_share = 0 ∧
      r.gp_final_split = 0 ∧ r.lp_final_split = 0) := by
  have hY : 1 ≤ total_fund_life_years lifespan := total_fund_life_years_pos lifespan hlife
  have hne : ledger ≠ [] := by
    intro h
    rw [h] at hsweep
    exact absurd hsweep (by simp)
  have hrecs : waterfallRecs wf lifespan ledger =
      (runYears wf (yearInputs wf (total_fund_life_years lifespan) ledger)
        initWFState).2 := by
    unfold waterfallRecs
    rw [if_neg]
    intro h
    exact hne (List.isEmpty_iff.mp h)
  -- the year of the single sweep
  have hys1 : 1 ≤ entryYear (total_fund_life_years lifespan) s.time_months :=
    entryYear_ge_one _ hY _
  have hysY : entryYear (total_fund_life_years lifespan) s.time_months ≤
      ((total_fund_life_years lifespan : ℕ) : ℤ) := entryYear_le_total _ _
  -- company and fee sums are nonpositive
  have hcomp0 : company_flow_sum ledger ≤ 0 := by
    unfold company_flow_sum
    apply list_sum_nonpos
    intro x hx
    rcases List.mem_map.mp hx with ⟨e, he, hex⟩
    obtain ⟨hmem, hcond⟩ := List.mem_filter.mp he
    simp only [Bool.and_eq_true, decide_eq_true_eq] at hcond
    rw [← hex]
    exact hproc e hmem hcond.1 hcond.2
  have hfee0 : fee_flow_sum ledger ≤ 0 := by
    unfold fee_flow_sum
    apply list_sum_nonpos
    intro x hx
    rcases List.mem_map.mp hx with ⟨e, he, hex⟩
    obtain ⟨hmem, hcond⟩ := List.mem_filter.mp he
    rw [← hex]
    exact hfees e hmem (by simpa using hcond)
  -- running sums of calls: all calls happen no later than the sweep's year
  have hcallsum : ∀ n : ℕ,
      entryYear (total_fund_life_years lifespan) s.time_months ≤ (n : ℤ) →
      ((List.range n).map fun (k : ℕ) =>
        annual_capital_calls (total_fund_life_years lifespan) ledger ((k:ℤ) + 1)).sum
        = total_calls_abs ledger := by
    intro n hn
    have h1 : ((List.range n).map fun (k : ℕ) =>
        annual_capital_calls (total_fund_life_years lifespan) ledger ((k:ℤ) + 1)).sum
        = ((ledger.filter fun e => (e.tag == -2) &&
            decide (entryYear (total_fund_life_years lifespan) e.time_months ≤ (n:ℤ))).map
          fun e => |e.amount|).sum :=
      sum_years_eq (fun e => e.tag == -2) (fun e => |e.amount|)
        (total_fund_life_years lifespan) hY ledger n
    rw [h1]
    unfold total_calls_abs
    have hfil : (ledger.filter fun e => (e.tag == -2) &&
        decide (entryYear (total_fund_life_years lifespan) e.time_months ≤ (n:ℤ)))
        = ledger.filter fun e => e.tag == -2 := by
      apply List.filter_congr
      intro e hmem
      by_cases htag : e.tag = -2
      · have h2 : entryYear (total_fund_life_years lifespan) e.time_months ≤ (n : ℤ) :=
          le_trans (entryYear_mono _ (hcalls e hmem htag).2.2) hn
        simp [htag, h2]
      · simp [htag]
    rw [hfil]
  -- running sums of swept cash: zero before the sweep's year, the full sweep after
  have hcbsum : ∀ n : ℕ,
      ((List.range n).map fun (k : ℕ) =>
        annual_cash_back (total_fund_life_years lifespan) ledger ((k:ℤ) + 1)).sum
        = if entryYear (total_fund_life_years lifespan) s.time_months ≤ (n : ℤ)
          then |s.amount| else 0 := by
    intro n
    have h1 : ∀ k : ℕ, annual_cash_back (total_fund_life_years lifespan) ledger
        ((k:ℤ) + 1) =
        if entryYear (total_fund_life_years lifespan) s.time_months = (k:ℤ) + 1
        then |s.amount| else 0 :=
      fun k => annual_cash_back_single _ ledger s hsweep _
    rw [List.map_congr_left (fun k _ => h1 k)]
    exact range_indicator_sum |s.amount| _ hys1 n
  -- elementwise facts about the year inputs
  have hin : ∀ i ∈ yearInputs wf (total_fund_life_years lifespan) ledger,
      i.proceeds = 0 ∧ 0 ≤ i.calls ∧ 0 ≤ i.cash_back ∧ 0 ≤ i.mid_year_increase := by
    intro i hi
    have hnn := yearInputs_nonneg wf (total_fund_life_years lifespan) ledger i hi
    unfold yearInputs at hi
    rcases List.mem_map.mp hi with ⟨k, _, hik⟩
    refine ⟨?_, hnn.1, hnn.2.2, ?_⟩
    · rw [← hik]
      exact annual_gross_proceeds_zero _ ledger _ hproc
    · rw [← hik]
      exact mid_year_pref_increase_nonneg wf _ ledger _ hgp1 hpr
        (fun e he h2 => ⟨(hcalls e he h2).1, (hcalls e he h2).2.1⟩)
  -- running-sum domination: swept cash never outruns called capital
  have hdom : ∀ n : ℕ,
      (0:ℚ) + (((yearInputs wf (total_fund_life_years lifespan) ledger).take n).map
        YearInput.cash_back).sum ≤
      0 + (((yearInputs wf (total_fund_life_years lifespan) ledger).take n).map
        YearInput.calls).sum := by
    intro n
    have htake : (yearInputs wf (total_fund_life_years lifespan) ledger).take n =
        (List.range (min n (total_fund_life_years lifespan))).map fun (k : ℕ) =>
          ⟨annual_capital_calls (total_fund_life_years lifespan) ledger ((k:ℤ) + 1),
           annual_gross_proceeds (total_fund_life_years lifespan) ledger ((k:ℤ) + 1),
           annual_cash_back (total_fund_life_years lifespan) ledger ((k:ℤ) + 1),
           mid_year_pref_increase wf (total_fund_life_years lifespan) ledger ((k:ℤ) + 1)⟩ := by
      unfold yearInputs
      rw [← List.map_take, List.take_range]
    rw [htake, List.map_map, List.map_map, zero_add, zero_add]
    have hcb := hcbsum (min n (total_fund_life_years lifespan))
    have hcb2 : ((List.range (min n (total_fund_life_years lifespan))).map
        fun (k : ℕ) => annual_cash_back (total_fund_life_years lifespan) ledger
          ((k:ℤ) + 1)).sum ≤
        if entryYear (total_fund_life_years lifespan) s.time_months ≤
          ((min n (total_fund_life_years lifespan) : ℕ) : ℤ)
        then total_calls_abs ledger else 0 := by
      rw [hcb]
      split_ifs with h
      · rw [abs_of_nonneg hs0, hsamt]
        linarith
      · exact le_refl 0
    have hca : ((List.range (min n (total_fund_life_years lifespan))).map
        fun (k : ℕ) => annual_capital_calls (total_fund_life_years lifespan) ledger
          ((k:ℤ) + 1)).sum =
        if entryYear (total_fund_life_years lifespan) s.time_months ≤
          ((min n (total_fund_life_years lifespan) : ℕ) : ℤ)
        then ((List.range (min n (total_fund_life_years lifespan))).map
          fun (k : ℕ) => annual_capital_calls (total_fund_life_years lifespan) ledger
            ((k:ℤ) + 1)).sum else
          ((List.range (min n (total_fund_life_years lifespan))).map
          fun (k : ℕ) => annual_capital_calls (total_fund_life_years lifespan) ledger
            ((k:ℤ) + 1)).sum := by
      split_ifs <;> rfl
    have hcalls_nonneg : 0 ≤ ((List.range (min n (total_fund_life_years lifespan))).map
        fun (k : ℕ) => annual_capital_calls (total_fund_life_years lifespan) ledger
          ((k:ℤ) + 1)).sum := by
      apply List.sum_nonneg
      intro x hx
      rcases List.mem_map.mp hx with ⟨k, _, hkx⟩
      rw [← hkx]
      unfold annual_capital_calls
      apply List.sum_nonneg
      intro z hz
      rcases List.mem_map.mp hz with ⟨e, _, hez⟩
      rw [← hez]
      exact abs_nonneg _
    show ((List.range (min n (total_fund_life_years lifespan))).map
        fun (k : ℕ) => annual_cash_back (total_fund_life_years lifespan) ledger
          ((k:ℤ) + 1)).sum ≤
      ((List.range (min n (total_fund_life_years lifespan))).map
        fun (k : ℕ) => annual_capital_calls (total_fund_life_years lifespan) ledger
          ((k:ℤ) + 1)).sum
    refine le_trans hcb2 ?_
    split_ifs with h
    · rw [hcallsum (min n (total_fund_life_years lifespan)) h]
    · exact hcalls_nonneg
  have hrun := runYears_no_profit wf hgp0 hgp1 hpr
    (yearInputs wf (total_fund_life_years lifespan) ledger) 0 0 initWFState
    (initWFState_no_profit wf) hin hdom
  constructor
  · unfold total_net_lp_flow
    rw [hrecs, hrun.1]
    -- the total swept cash is the single sweep's amount
    have htotcb : ((yearInputs wf (total_fund_life_years lifespan) ledger).map
        YearInput.cash_back).sum = s.amount := by
      unfold yearInputs
      rw [List.map_map]
      show ((List.range (total_fund_life_years lifespan)).map
        fun (k : ℕ) => annual_cash_back (total_fund_life_years lifespan) ledger
          ((k:ℤ) + 1)).sum = s.amount
      rw [hcbsum (total_fund_life_years lifespan), if_pos hysY, abs_of_nonneg hs0]
    -- the signed call amounts sum to minus the absolute total
    have hcallamt : ((ledger.filter fun e => e.tag == -2).map fun e => e.amount).sum
        = -(total_calls_abs ledger) := by
      unfold total_calls_abs
      apply sum_amounts_eq_neg_abs
      intro e he
      obtain ⟨hmem, hcond⟩ := List.mem_filter.mp he
      exact (hcalls e hmem (by simpa using hcond)).1
    rw [htotcb, hcallamt, hsamt]
    ring
  · intro r hr
    rw [hrecs] at hr
    exact hrun.2 r hr

/-- Claim C3 (amended): with zero gross proceeds the total net LP flow is
not the negated fees alone, but the LP commitment share of fees plus
invested (lost) capital, negated: for a ledger with no positive company
proceeds, nonpositive fee and call amounts, calls timed inside their
assigned fund-year, and one swept-cash entry equal to calls minus
investments minus fees arriving no earlier than any call, the total net LP
flow equals lp_commit_pct times the (negative) sum of company and fee
flows, and no year pays preferred return, catch-up or carry. -/
theorem waterfall_zero_profit_spec (wf : Waterfall) (lifespan : ℚ)
    (ledger : List LedgerEntry) (s : LedgerEntry)
    (hgp0 : 0 ≤ wf.gp_capital_contribution_pct)
    (hgp1 : wf.gp_capital_contribution_pct ≤ 1)
    (hpr : 0 ≤ wf.preferred_return_pct)
    (hlife : 0 < lifespan)
    (hproc : ∀ e ∈ ledger, 0 < e.tag → e.tag < 9999 → e.amount ≤ 0)
    (hfees : ∀ e ∈ ledger, e.tag = -1 → e.amount ≤ 0)
    (hcalls : ∀ e ∈ ledger, e.tag = -2 → e.amount ≤ 0 ∧
      e.time_months ≤ 12 * entryYear (total_fund_life_years lifespan) e.time_months ∧
      e.time_months ≤ s.time_months)
    (hsweep : ledger.filter (fun e => e.tag == 9999) = [s])
    (hsamt : s.amount = total_calls_abs ledger + company_flow_sum ledger +
      fee_flow_sum ledger)
    (hs0 : 0 ≤ s.amount) :
    total_net_lp_flow wf lifespan ledger =
      lp_commit_pct wf * (company_flow_sum ledger + fee_flow_sum ledger) ∧
    (∀ r ∈ waterfallRecs wf lifespan ledger, r.pref_payment = 0 ∧
      r.gp_catch_up_payment = 0 ∧ r.lp_catch_up_share = 0 ∧
      r.gp_final_split = 0 ∧ r.lp_final_split = 0) :=
  zero_profit_net_flow wf lifespan ledger s hgp0 hgp1 hpr hlife hproc hfees
    hcalls hsweep hsamt hs0

/-- The fund-year constants of the concrete counterexample run. -/
theorem concrete_year_facts :
    total_fund_life_years 24 = 2 ∧ entryYear 2 0 = 1 ∧ entryYear 2 18 = 2 := by
  refine ⟨?_, ?_, ?_⟩
  · unfold total_fund_life_years
    norm_num
    rfl
  · unfold entryYear
    rw [show Int.floor (((0:ℚ) - 1/1000000000) / 12) = -1 from by
      rw [Int.floor_eq_iff] <;> norm_num]
    rfl
  · unfold entryYear
    rw [show Int.floor (((18:ℚ) - 1/1000000000) / 12) = 1 from by
      rw [Int.floor_eq_iff] <;> norm_num]
    rfl

/-- The zero-profit law applied to a concrete run: one 100 call at month 0,
one 10 fee and a 90 sweep at month 18, standard terms with a 1 pct GP
commitment. -/
theorem concrete_zero_profit :
    total_net_lp_flow ⟨1, 1/5, 2/25, 1/100⟩ 24
        [⟨-100, 0, -2⟩, ⟨-10, 18, -1⟩, ⟨90, 18, 9999⟩] =
      lp_commit_pct ⟨1, 1/5, 2/25, 1/100⟩ *
        (company_flow_sum [⟨-100, 0, -2⟩, ⟨-10, 18, -1⟩, ⟨90, 18, 9999⟩] +
         fee_flow_sum [⟨-100, 0, -2⟩, ⟨-10, 18, -1⟩, ⟨90, 18, 9999⟩]) := by
  obtain ⟨hY2, he0, he18⟩ := concrete_year_facts
  refine (zero_profit_net_flow ⟨1, 1/5, 2/25, 1/100⟩ 24
    [⟨-100, 0, -2⟩, ⟨-10, 18, -1⟩, ⟨90, 18, 9999⟩] ⟨90, 18, 9999⟩
    (by norm_num) (by norm_num) (by norm_num) (by norm_num)
    ?_ ?_ ?_ (by simp) ?_ (by norm_num)).1
  · intro e he h1 h2
    fin_cases he <;> norm_num at h1 h2 ⊢
  · intro e he htag
    fin_cases he <;> norm_num at htag ⊢
  · intro e he htag
    fin_cases he <;> norm_num at htag ⊢
    rw [hY2, he0]
    norm_num
  · show (90:ℚ) = _
    rw [total_calls_abs, company_flow_sum, fee_flow_sum]
    simp
    norm_num

/-- Claim C3 counterexample: the concrete zero-gross-proceeds run above has
net LP flow -99/10, which differs from the negated fees paid (-10): the
claim misses both the LP commitment share and the invested capital lost.
The first conjunct records that the run really has zero gross proceeds. -/
theorem waterfall_zero_profit_counterexample :
    (([⟨-100, 0, -2⟩, ⟨-10, 18, -1⟩, ⟨90, 18, 9999⟩] : List LedgerEntry).filter
      (fun e => decide (0 < e.tag) && decide (e.tag < 9999) &&
        decide (0 < e.amount))) = [] ∧
    total_net_lp_flow ⟨1, 1/5, 2/25, 1/100⟩ 24
        [⟨-100, 0, -2⟩, ⟨-10, 18, -1⟩, ⟨90, 18, 9999⟩] ≠
      -(((([⟨-100, 0, -2⟩, ⟨-10, 18, -1⟩, ⟨90, 18, 9999⟩] : List LedgerEntry).filter
          (fun e => e.tag == -1)).map fun e => |e.amount|).sum) := by
  refine ⟨by simp, ?_⟩
  rw [concrete_zero_profit]
  rw [company_flow_sum, fee_flow_sum, lp_commit_pct]
  simp

/-- Witness for the amended C3 theorem at the same concrete run. -/
theorem waterfall_zero_profit_spec_witness :
    total_net_lp_flow ⟨1, 1/5, 2/25, 1/100⟩ 24
        [⟨-100, 0, -2⟩, ⟨-10, 18, -1⟩, ⟨90, 18, 9999⟩] =
      lp_commit_pct ⟨1, 1/5, 2/25, 1/100⟩ *
        (company_flow_sum [⟨-100, 0, -2⟩, ⟨-10, 18, -1⟩, ⟨90, 18, 9999⟩] +
         fee_flow_sum [⟨-100, 0, -2⟩, ⟨-10, 18, -1⟩, ⟨90, 18, 9999⟩]) ∧
    (∀ r ∈ waterfallRecs ⟨1, 1/5, 2/25, 1/100⟩ 24
        [⟨-100, 0, -2⟩, ⟨-10, 18, -1⟩, ⟨90, 18, 9999⟩], r.pref_payment = 0 ∧
      r.gp_catch_up_payment = 0 ∧ r.lp_catch_up_share = 0 ∧
      r.gp_final_split = 0 ∧ r.lp_final_split = 0) := by
  refine waterfall_zero_profit_spec ⟨1, 1/5, 2/25, 1/100⟩ 24
    [⟨-100, 0, -2⟩, ⟨-10, 18, -1⟩, ⟨90, 18, 9999⟩] ⟨90, 18, 9999⟩
    (by norm_num) (by norm_num) (by norm_num) (by norm_num)
    ?_ ?_ ?_ (by simp) ?_ (by norm_num)
  · intro e he h1 h2
    fin_cases he <;> norm_num at h1 h2 ⊢
  · intro e he htag
    fin_cases he <;> norm_num at htag ⊢
  · intro e he htag
    fin_cases he <;> norm_num at htag ⊢
    rw [(concrete_year_facts).1, (concrete_year_facts).2.1]
    norm_num
  · show (90:ℚ) = _
    rw [total_calls_abs, company_flow_sum, fee_flow_sum]
    simp
    norm_num

end VCSim
